import Mathlib

/-
Verification of the gophercloud slice: the image-service v2 `images/results.go`
and blockstorage v2 `volumes/results.go` decoding and pagination layer.

The Go code is shallowly embedded:
  * JSON wire values are the inductive `Json`; a JSON number is kept as the
    decimal lexeme `mantissa * 10 ^ (-exp10)`, so the two wire encodings
    `1073741824` and `1073741824.0` are distinct `Json` values with equal
    numeric value.  (Go parses both through float64; the model is exact, which
    agrees with Go for the integral sizes the theorems use, all below 2^53.)
  * `encoding/json` struct decoding is embedded field by field: an absent or
    null key leaves the field at its zero value, a wrong-typed key is an
    `unmarshalType` error (Go records such an error and returns it from
    `json.Unmarshal`; the model returns the error in struct-field order rather
    than payload order, which only changes which error is reported, never
    whether one is).  Go's multi-value `(value, err)` returns are embedded as
    `Except`: a non-nil error supersedes the value.
  * `time.Parse(time.RFC3339, s)` is embedded as `rfc3339Parse`, which returns
    `none` exactly when Go returns a parse error (Go then also returns the
    zero `time.Time`).
-/

namespace Gophercloud

/-- A parsed JSON value.  Numbers carry their decimal wire form:
`num m e` is the lexeme with integer value `m` scaled down by `10 ^ e`
(`num 105 1` is the wire text `10.5`; `num 10 0` is `10`). -/
inductive Json where
  | null
  | bool (b : Bool)
  | num (mantissa : Int) (exp10 : Nat)
  | str (s : String)
  | arr (elems : List Json)
  | obj (fields : List (String × Json))
deriving Repr

/-- The numeric value of a `Json.num m e` lexeme, as a rational `m / 10 ^ e`;
used only to state when two wire encodings are numerically equal. -/
def numValEq (m1 : Int) (e1 : Nat) (m2 : Int) (e2 : Nat) : Prop :=
  m1 * 10 ^ e2 = m2 * 10 ^ e1

instance (m1 : Int) (e1 : Nat) (m2 : Int) (e2 : Nat) :
    Decidable (numValEq m1 e1 m2 e2) := by
  unfold numValEq
  infer_instance

/-- Go's conversion `int64(f)` of a nonintegral value truncates toward zero;
on the decimal lexeme this is truncating division by `10 ^ e`. -/
def truncDec (m : Int) (e : Nat) : Int := m.tdiv ((10 : Int) ^ e)

/-- Association-list lookup with the semantics of a Go map built from a JSON
object: the LAST occurrence of a duplicated key wins (encoding/json overwrites
earlier values). -/
def alookup {α : Type} : List (String × α) → String → Option α
  | [], _ => none
  | kv :: rest, k =>
    match alookup rest k with
    | some v => some v
    | none => if kv.1 = k then some kv.2 else none

/-- Lookup of a top-level key in a JSON object's field list. -/
def jGet (fs : List (String × Json)) (k : String) : Option Json := alookup fs k

/-- Go's dynamic type name reported by `reflect.TypeOf` for a value decoded
from JSON into `interface{}` (numbers always arrive as float64). -/
def goTypeName : Json → String
  | .null => "<nil>"
  | .bool _ => "bool"
  | .num _ _ => "float64"
  | .str _ => "string"
  | .arr _ => "[]interface \x7b\x7d"
  | .obj _ => "map[string]interface \x7b\x7d"

/-- Errors surfaced by the embedded decode paths. `unmarshalType` stands for
encoding/json's UnmarshalTypeError, `timeParse` for a `time.Parse` error on the
quoted value, `unknownSizeType` for the `fmt.Errorf("Unknown type for
SizeBytes: ...")` built in `Image.UnmarshalJSON`. -/
inductive GoErr where
  | unmarshalType (jsonValueKind : String) (goType : String)
  | timeParse (value : String)
  | unknownSizeType (goType : String)
deriving DecidableEq, Repr

/-- The JSON kind word used in UnmarshalTypeError messages. -/
def jsonKind : Json → String
  | .null => "null"
  | .bool _ => "bool"
  | .num _ _ => "number"
  | .str _ => "string"
  | .arr _ => "array"
  | .obj _ => "object"

/-- Decode a `string`-typed struct field: absent and JSON null leave the zero
value ""; any non-string value is a type error. -/
def decStr : Option Json → Except GoErr String
  | none => .ok ""
  | some .null => .ok ""
  | some (.str s) => .ok s
  | some v => .error (.unmarshalType (jsonKind v) "string")

/-- Decode an `int`/`int64` struct field.  encoding/json feeds the number
lexeme to strconv.ParseInt, so only an integer lexeme (`exp10 = 0`) within the
int64 range is accepted; `10.0` is rejected even though its value is integral. -/
def decInt64 : Option Json → Except GoErr Int
  | none => .ok 0
  | some .null => .ok 0
  | some (.num m e) =>
    if e = 0 ∧ -(2 ^ 63) ≤ m ∧ m < 2 ^ 63 then .ok m
    else .error (.unmarshalType "number" "int64")
  | some v => .error (.unmarshalType (jsonKind v) "int64")

/-- Decode a `bool` struct field. -/
def decBool : Option Json → Except GoErr Bool
  | none => .ok false
  | some .null => .ok false
  | some (.bool b) => .ok b
  | some v => .error (.unmarshalType (jsonKind v) "bool")

/-- Decode one element of a `[]string` or one value of a `map[string]string`:
null leaves the element's zero value "" (a JSON null into a non-pointer Go
value has no effect and produces no error). -/
def decStrElem : Json → Except GoErr String
  | .null => .ok ""
  | .str s => .ok s
  | v => .error (.unmarshalType (jsonKind v) "string")

/-- Effectful map over a list in `Except`; the first failing element aborts. -/
def exceptMapM {α β : Type} (f : α → Except GoErr β) : List α → Except GoErr (List β)
  | [] => .ok []
  | x :: xs => do
    let y ← f x
    let ys ← exceptMapM f xs
    pure (y :: ys)

/-- Decode a `[]string` struct field. -/
def decStrList : Option Json → Except GoErr (List String)
  | none => .ok []
  | some .null => .ok []
  | some (.arr xs) => exceptMapM decStrElem xs
  | some v => .error (.unmarshalType (jsonKind v) "[]string")

/-- Insert into an association list with Go map semantics: any previous binding
of the key is dropped and the new binding appended. -/
def mapUpsert {α : Type} (l : List (String × α)) (kv : String × α) : List (String × α) :=
  l.filter (fun e => decide (e.1 ≠ kv.1)) ++ [kv]

/-- The Go map obtained from iterating a JSON object's bindings in order:
later duplicates overwrite earlier ones. -/
def dedupLastWins {α : Type} (l : List (String × α)) : List (String × α) :=
  l.foldl mapUpsert []

/-- Decode a `map[string]string` struct field. -/
def decStrMap : Option Json → Except GoErr (List (String × String))
  | none => .ok []
  | some .null => .ok []
  | some (.obj fields) => do
    let pairs ← exceptMapM (fun kv => do pure (kv.1, ← decStrElem kv.2)) fields
    pure (dedupLastWins pairs)
  | some v => .error (.unmarshalType (jsonKind v) "map[string]string")

/-- Decode a `map[string]interface\x7b\x7d` struct field. -/
def decJsonMap : Option Json → Except GoErr (List (String × Json))
  | none => .ok []
  | some .null => .ok []
  | some (.obj fields) => .ok (dedupLastWins fields)
  | some v => .error (.unmarshalType (jsonKind v) "map[string]interface \x7b\x7d")

/-- Decode an `interface\x7b\x7d` struct field: any JSON value is accepted;
absent and JSON null both leave the interface nil. -/
def jNullable : Option Json → Option Json
  | some .null => none
  | o => o

/-- The components Go's `time.Time` records after parsing an RFC3339-family
string; the zero `time.Time` is year 1, January 1, 00:00:00 UTC. -/
structure GoTime where
  year : Nat
  month : Nat
  day : Nat
  hour : Nat
  minute : Nat
  second : Nat
  nanos : Nat
  offsetMin : Int
deriving DecidableEq, Repr

/-- The zero `time.Time`. -/
def zeroGoTime : GoTime :=
  { year := 1, month := 1, day := 1, hour := 0, minute := 0, second := 0,
    nanos := 0, offsetMin := 0 }

/-- Numeric value of an ASCII digit. -/
def digitVal (c : Char) : Option Nat :=
  if '0' ≤ c ∧ c ≤ '9' then some (c.toNat - 48) else none

/-- Parse exactly `n` ASCII digits into a number, as Go's fixed-width `getnum`
does for the "2006", "01", "02", "15", "04", "05" layout chunks. -/
def parseFixedNat : Nat → Nat → List Char → Option (Nat × List Char)
  | 0, acc, cs => some (acc, cs)
  | n + 1, acc, c :: cs =>
    match digitVal c with
    | some d => parseFixedNat n (acc * 10 + d) cs
    | none => none
  | _ + 1, _, [] => none

/-- Consume one expected literal character. -/
def expectChar (c : Char) : List Char → Option (List Char)
  | c' :: cs => if c' = c then some cs else none
  | [] => none

/-- Collect leading ASCII digits. -/
def takeDigits : List Char → (List Nat × List Char)
  | [] => ([], [])
  | c :: cs =>
    match digitVal c with
    | some d =>
      let (ds, rest) := takeDigits cs
      (d :: ds, rest)
    | none => ([], c :: cs)

/-- Nanoseconds from a fractional-second digit string: the digits are scaled to
nine places; Go rejects more than nine fractional digits. -/
def nanosOfDigits (ds : List Nat) : Option Nat :=
  if ds.length = 0 ∨ 9 < ds.length then none
  else some ((ds.foldl (fun acc d => acc * 10 + d) 0) * 10 ^ (9 - ds.length))

/-- Parse an optional fractional second: Go's layout parser accepts a decimal
point plus digits after the seconds chunk even when the layout itself has no
fraction. -/
def parseOptFrac : List Char → Option (Nat × List Char)
  | '.' :: c :: cs =>
    match digitVal c with
    | some d =>
      let (ds, rest) := takeDigits cs
      match nanosOfDigits (d :: ds) with
      | some ns => some (ns, rest)
      | none => none
    | none => none
  | cs => some (0, cs)

/-- Parse the RFC3339 zone chunk "Z07:00": a literal 'Z' or a signed
hour:minute offset in minutes.  The generic layout parser does not
range-check the offset digits. -/
def parseZone : List Char → Option (Int × List Char)
  | 'Z' :: cs => some (0, cs)
  | '+' :: cs => do
    let (h, cs) ← parseFixedNat 2 0 cs
    let cs ← expectChar ':' cs
    let (m, cs) ← parseFixedNat 2 0 cs
    pure ((h * 60 + m : Nat), cs)
  | '-' :: cs => do
    let (h, cs) ← parseFixedNat 2 0 cs
    let cs ← expectChar ':' cs
    let (m, cs) ← parseFixedNat 2 0 cs
    pure (-((h * 60 + m : Nat) : Int), cs)
  | _ => none

/-- Go's leap-year rule. -/
def isLeapYear (y : Nat) : Bool :=
  y % 4 = 0 && (y % 100 ≠ 0 || y % 400 = 0)

/-- Days in a month, the bound Go checks before accepting a parsed date. -/
def daysInMonth (y m : Nat) : Nat :=
  if m = 2 then (if isLeapYear y then 29 else 28)
  else if m = 4 ∨ m = 6 ∨ m = 9 ∨ m = 11 then 30
  else 31

/-- Embedded `time.Parse(time.RFC3339, s)`: layout "2006-01-02T15:04:05Z07:00".
Returns `none` exactly when Go returns a non-nil error (Go then also returns
the zero `time.Time`).  In particular the empty string does not parse. -/
def rfc3339Parse (s : String) : Option GoTime := do
  let cs := s.toList
  let (y, cs) ← parseFixedNat 4 0 cs
  let cs ← expectChar '-' cs
  let (mo, cs) ← parseFixedNat 2 0 cs
  let cs ← expectChar '-' cs
  let (d, cs) ← parseFixedNat 2 0 cs
  let cs ← expectChar 'T' cs
  let (h, cs) ← parseFixedNat 2 0 cs
  let cs ← expectChar ':' cs
  let (mi, cs) ← parseFixedNat 2 0 cs
  let cs ← expectChar ':' cs
  let (sec, cs) ← parseFixedNat 2 0 cs
  let (ns, cs) ← parseOptFrac cs
  let (off, cs) ← parseZone cs
  if cs = [] ∧ 1 ≤ mo ∧ mo ≤ 12 ∧ 1 ≤ d ∧ d ≤ daysInMonth y mo ∧
      h ≤ 23 ∧ mi ≤ 59 ∧ sec ≤ 59 then
    pure { year := y, month := mo, day := d, hour := h, minute := mi,
           second := sec, nanos := ns, offsetMin := off }
  else none

namespace images

/-- The `images.Image` entity of `openstack/imageservice/v2/images/results.go`.
`ImageStatus` and `ImageVisibility` are Go string types, embedded as `String`.
Go maps (`Metadata`, `Properties`) are embedded as association lists with
unique keys by construction; `CreatedAt`/`UpdatedAt` carry the `json:"-"` tag
in the source, so plain encoding/json never reads or writes them. -/
structure Image where
  id : String
  name : String
  status : String
  tags : List String
  containerFormat : String
  diskFormat : String
  minDiskGigabytes : Int
  minRAMMegabytes : Int
  owner : String
  protectedFlag : Bool
  visibility : String
  checksum : String
  sizeBytes : Int
  metadata : List (String × String)
  properties : List (String × String)
  createdAt : GoTime
  updatedAt : GoTime
  file : String
  schema : String
  virtualSize : Int
  self : String
  directURL : String
  locations : List String
deriving DecidableEq, Repr

/-- The transient decode struct of `Image.UnmarshalJSON`: the embedded
`tmp` (= Image) plus the three shadowing fields.  The outer `SizeBytes
interface\x7b\x7d json:"size"` shadows the embedded `json:"size"` (so the
embedded SizeBytes stays 0), and the embedded timestamps are `json:"-"`,
so only the outer string fields see `created_at`/`updated_at`. -/
structure ImageTmp where
  id : String
  name : String
  status : String
  tags : List String
  containerFormat : String
  diskFormat : String
  minDiskGigabytes : Int
  minRAMMegabytes : Int
  owner : String
  protectedFlag : Bool
  visibility : String
  checksum : String
  metadata : List (String × String)
  properties : List (String × String)
  file : String
  schema : String
  virtualSize : Int
  self : String
  directURL : String
  locations : List String
  sizeRaw : Option Json
  createdAtStr : String
  updatedAtStr : String
deriving Repr

/-- Go's `json.Unmarshal(b, &p)` for the transient struct: each promoted field is
decoded from its wire name; unknown top-level keys are ignored. -/
def decodeImageTmp (fs : List (String × Json)) : Except GoErr ImageTmp := do
  let id ← decStr (jGet fs "id")
  let name ← decStr (jGet fs "name")
  let status ← decStr (jGet fs "status")
  let tags ← decStrList (jGet fs "tags")
  let containerFormat ← decStr (jGet fs "container_format")
  let diskFormat ← decStr (jGet fs "disk_format")
  let minDiskGigabytes ← decInt64 (jGet fs "min_disk")
  let minRAMMegabytes ← decInt64 (jGet fs "min_ram")
  let owner ← decStr (jGet fs "owner")
  let protectedFlag ← decBool (jGet fs "protected")
  let visibility ← decStr (jGet fs "visibility")
  let checksum ← decStr (jGet fs "checksum")
  let metadata ← decStrMap (jGet fs "metadata")
  let properties ← decStrMap (jGet fs "properties")
  let file ← decStr (jGet fs "file")
  let schema ← decStr (jGet fs "schema")
  let virtualSize ← decInt64 (jGet fs "virtual_size")
  let self ← decStr (jGet fs "self")
  let directURL ← decStr (jGet fs "direct_url")
  let locations ← decStrList (jGet fs "locations")
  let createdAtStr ← decStr (jGet fs "created_at")
  let updatedAtStr ← decStr (jGet fs "updated_at")
  pure { id := id, name := name, status := status, tags := tags,
         containerFormat := containerFormat, diskFormat := diskFormat,
         minDiskGigabytes := minDiskGigabytes, minRAMMegabytes := minRAMMegabytes,
         owner := owner, protectedFlag := protectedFlag, visibility := visibility,
         checksum := checksum, metadata := metadata, properties := properties,
         file := file, schema := schema, virtualSize := virtualSize,
         self := self, directURL := directURL, locations := locations,
         sizeRaw := jNullable (jGet fs "size"),
         createdAtStr := createdAtStr, updatedAtStr := updatedAtStr }

/-- The assignment `*s = Image(p.tmp)`: the embedded tmp's SizeBytes was
shadowed (still 0) and its timestamps are `json:"-"` (still zero). -/
def imageOfTmp (p : ImageTmp) : Image :=
  { id := p.id, name := p.name, status := p.status, tags := p.tags,
    containerFormat := p.containerFormat, diskFormat := p.diskFormat,
    minDiskGigabytes := p.minDiskGigabytes, minRAMMegabytes := p.minRAMMegabytes,
    owner := p.owner, protectedFlag := p.protectedFlag, visibility := p.visibility,
    checksum := p.checksum, sizeBytes := 0, metadata := p.metadata,
    properties := p.properties, createdAt := zeroGoTime, updatedAt := zeroGoTime,
    file := p.file, schema := p.schema, virtualSize := p.virtualSize,
    self := p.self, directURL := p.directURL, locations := p.locations }

/-- The list `jsonTagKeys((*Image)(nil))` computes by reflection: the first
comma-separated component of each field's json tag, skipping "-" fields
(CreatedAt, UpdatedAt). -/
def imageJSONTagKeys : List String :=
  ["id", "name", "status", "tags", "container_format", "disk_format",
   "min_disk", "min_ram", "owner", "protected", "visibility", "checksum",
   "size", "metadata", "properties", "file", "schema", "virtual_size",
   "self", "direct_url", "locations"]

/-- The list `jsonTagKeys(st)` computes for the transient struct: the untagged
embedded field has no json tag, so the lowercased field name "tmp" is used;
the other three have explicit tags. -/
def tmpStructJSONTagKeys : List String :=
  ["tmp", "size", "created_at", "updated_at"]

/-- The full known-field set deleted by `unmarshalCustomProperties`. -/
def knownFields : List String := imageJSONTagKeys ++ tmpStructJSONTagKeys

/-- The method `Image.unmarshalCustomProperties`: re-read the payload as
`map[string]interface\x7b\x7d`, delete every known field, keep only the
string-valued leftovers (non-strings are dropped without error). -/
def unmarshalCustomProperties (fs : List (String × Json)) : List (String × String) :=
  let custom := dedupLastWins fs
  let residual := custom.filter (fun kv => decide (kv.1 ∉ knownFields))
  residual.filterMap (fun kv =>
    match kv.2 with
    | .str s => some (kv.1, s)
    | _ => none)

/-- The method `Image.UnmarshalJSON` on a JSON object payload.

Source control flow: unmarshal the transient struct; copy it into the Image;
switch on the raw size (nil returns early with a nil error; a float64 is
truncated; anything else is the "Unknown type for SizeBytes" error); parse
`created_at` and fail on error; parse `updated_at` — whose error is assigned
to `err` but immediately OVERWRITTEN by the `unmarshalCustomProperties` call,
so an unparseable `updated_at` silently leaves the zero time (`time.Parse`
returns the zero `time.Time` together with the error); finally the Properties
field is replaced by the extracted custom properties. -/
def decodeImage (fs : List (String × Json)) : Except GoErr Image := do
  let p ← decodeImageTmp fs
  let s := imageOfTmp p
  match p.sizeRaw with
  | none => pure s
  | some (.num m e) =>
    let s := { s with sizeBytes := truncDec m e }
    match rfc3339Parse p.createdAtStr with
    | none => Except.error (.timeParse p.createdAtStr)
    | some c =>
      let s := { s with createdAt := c,
                        updatedAt := (rfc3339Parse p.updatedAtStr).getD zeroGoTime }
      pure { s with properties := unmarshalCustomProperties fs }
  | some v => Except.error (.unknownSizeType (goTypeName v))

end images

/-- Lexicographic comparison of character lists by code point, the byte
order `sort.Strings` uses on (ASCII) map keys inside `json.Marshal`. -/
def charListLt : List Char → List Char → Bool
  | _, [] => false
  | [], _ :: _ => true
  | a :: as, b :: bs =>
    if a.toNat < b.toNat then true
    else if b.toNat < a.toNat then false
    else charListLt as bs

/-- Strict key order used for sorted map output. -/
def strLtB (a b : String) : Bool := charListLt a.toList b.toList

/-- The reflexive closure of `strLtB`. -/
def strLeB (a b : String) : Bool := !(strLtB b a)

/-- Insertion of one pair into a key-sorted pair list. -/
def insertPairSorted (kv : String × String) :
    List (String × String) → List (String × String)
  | [] => [kv]
  | x :: xs => if strLeB kv.1 x.1 then kv :: x :: xs else x :: insertPairSorted kv xs

/-- Sort a pair list by key, as `json.Marshal` emits Go map keys in sorted
order. -/
def sortPairs (l : List (String × String)) : List (String × String) :=
  l.foldr insertPairSorted []

/-- Go's `json.Marshal` of a `map[string]string`: an object with sorted keys. -/
def encodeStrMap (l : List (String × String)) : Json :=
  .obj ((sortPairs l).map (fun kv => (kv.1, Json.str kv.2)))

namespace images

/-- Go's `json.Marshal` of the modeled Image fields, following the struct's own
json tags in field order: `CreatedAt`/`UpdatedAt` are tagged `json:"-"` and
are never emitted.  (Go marshals a nil slice or map as `null`; the embedding
does not distinguish nil from empty — the round-trip theorems only exercise
payloads in which these fields are present, where Go also produces a
non-nil value.) -/
def encodeImage (img : Image) : List (String × Json) :=
  [("id", .str img.id),
   ("name", .str img.name),
   ("status", .str img.status),
   ("tags", .arr (img.tags.map .str)),
   ("container_format", .str img.containerFormat),
   ("disk_format", .str img.diskFormat),
   ("min_disk", .num img.minDiskGigabytes 0),
   ("min_ram", .num img.minRAMMegabytes 0),
   ("owner", .str img.owner),
   ("protected", .bool img.protectedFlag),
   ("visibility", .str img.visibility),
   ("checksum", .str img.checksum),
   ("size", .num img.sizeBytes 0),
   ("metadata", encodeStrMap img.metadata),
   ("properties", encodeStrMap img.properties),
   ("file", .str img.file),
   ("schema", .str img.schema),
   ("virtual_size", .num img.virtualSize 0),
   ("self", .str img.self),
   ("direct_url", .str img.directURL),
   ("locations", .arr (img.locations.map .str))]

end images

/-- Modelled from the spec: `gophercloud.JSONRFC3339MilliNoZ` is declared in
the gophercloud root package, outside this slice.  Per §4.1, date-like
attributes arrive as RFC3339-family strings parsed with the expected layout —
here "2006-01-02T15:04:05.999999", a zone-less timestamp with optional
fraction — and a genuinely absent value is tolerated as the zero time. -/
def milliNoZParse (s : String) : Option GoTime := do
  let cs := s.toList
  let (y, cs) ← parseFixedNat 4 0 cs
  let cs ← expectChar '-' cs
  let (mo, cs) ← parseFixedNat 2 0 cs
  let cs ← expectChar '-' cs
  let (d, cs) ← parseFixedNat 2 0 cs
  let cs ← expectChar 'T' cs
  let (h, cs) ← parseFixedNat 2 0 cs
  let cs ← expectChar ':' cs
  let (mi, cs) ← parseFixedNat 2 0 cs
  let cs ← expectChar ':' cs
  let (sec, cs) ← parseFixedNat 2 0 cs
  let (ns, cs) ← parseOptFrac cs
  if cs = [] ∧ 1 ≤ mo ∧ mo ≤ 12 ∧ 1 ≤ d ∧ d ≤ daysInMonth y mo ∧
      h ≤ 23 ∧ mi ≤ 59 ∧ sec ≤ 59 then
    pure { year := y, month := mo, day := d, hour := h, minute := mi,
           second := sec, nanos := ns, offsetMin := 0 }
  else none

/-- Modelled from the spec: decoding a `JSONRFC3339MilliNoZ` struct field.
Its UnmarshalJSON reads the JSON value as a string (absent and null leave
the zero value); an empty string is the tolerated absent case, any other
string must parse with the layout. -/
def decTimeMilliNoZ : Option Json → Except GoErr GoTime
  | none => .ok zeroGoTime
  | some .null => .ok zeroGoTime
  | some (.str s) =>
    if s = "" then .ok zeroGoTime
    else
      match milliNoZParse s with
      | some t => .ok t
      | none => .error (.timeParse s)
  | some v => .error (.unmarshalType (jsonKind v) "JSONRFC3339MilliNoZ")

namespace volumes

/-- The `volumes.Attachment` struct of
`openstack/blockstorage/v2/volumes/results.go`. -/
structure Attachment where
  attachedAt : GoTime
  attachmentID : String
  device : String
  hostName : String
  id : String
  serverID : String
  volumeID : String
deriving Repr

/-- Go's `json.Unmarshal` of one Attachment object. -/
def decodeAttachment (fs : List (String × Json)) : Except GoErr Attachment := do
  let attachedAt ← decTimeMilliNoZ (jGet fs "attached_at")
  let attachmentID ← decStr (jGet fs "attachment_id")
  let device ← decStr (jGet fs "device")
  let hostName ← decStr (jGet fs "host_name")
  let id ← decStr (jGet fs "id")
  let serverID ← decStr (jGet fs "server_id")
  let volumeID ← decStr (jGet fs "volume_id")
  pure { attachedAt := attachedAt, attachmentID := attachmentID,
         device := device, hostName := hostName, id := id,
         serverID := serverID, volumeID := volumeID }

/-- The zero `volumes.Attachment`. -/
def zeroAttachment : Attachment :=
  { attachedAt := zeroGoTime, attachmentID := "", device := "", hostName := "",
    id := "", serverID := "", volumeID := "" }

/-- One element of the `Attachments []Attachment` field.  Attachment has no
custom UnmarshalJSON, so encoding/json decodes a JSON null element as a
silent no-op: the zero Attachment, with no error. -/
def decodeAttachmentElem : Json → Except GoErr Attachment
  | .obj fs => decodeAttachment fs
  | .null => .ok zeroAttachment
  | v => .error (.unmarshalType (jsonKind v) "volumes.Attachment")

/-- Decode an `[]Attachment` struct field. -/
def decAttachments : Option Json → Except GoErr (List Attachment)
  | none => .ok []
  | some .null => .ok []
  | some (.arr xs) => exceptMapM decodeAttachmentElem xs
  | some v => .error (.unmarshalType (jsonKind v) "[]volumes.Attachment")

/-- The `volumes.Volume` entity. -/
structure Volume where
  id : String
  status : String
  size : Int
  availabilityZone : String
  createdAt : GoTime
  updatedAt : GoTime
  attachments : List Attachment
  name : String
  description : String
  volumeType : String
  snapshotID : String
  sourceVolID : String
  metadata : List (String × String)
  userID : String
  bootable : String
  encrypted : Bool
  replicationStatus : String
  consistencyGroupID : String
  multiattach : Bool
  volumeImageMetadata : List (String × Json)
deriving Repr

/-- Go's `json.Unmarshal` of one Volume object (the Volume struct has no custom
UnmarshalJSON; every field decodes by its json tag). -/
def decodeVolume (fs : List (String × Json)) : Except GoErr Volume := do
  let id ← decStr (jGet fs "id")
  let status ← decStr (jGet fs "status")
  let size ← decInt64 (jGet fs "size")
  let availabilityZone ← decStr (jGet fs "availability_zone")
  let createdAt ← decTimeMilliNoZ (jGet fs "created_at")
  let updatedAt ← decTimeMilliNoZ (jGet fs "updated_at")
  let attachments ← decAttachments (jGet fs "attachments")
  let name ← decStr (jGet fs "name")
  let description ← decStr (jGet fs "description")
  let volumeType ← decStr (jGet fs "volume_type")
  let snapshotID ← decStr (jGet fs "snapshot_id")
  let sourceVolID ← decStr (jGet fs "source_volid")
  let metadata ← decStrMap (jGet fs "metadata")
  let userID ← decStr (jGet fs "user_id")
  let bootable ← decStr (jGet fs "bootable")
  let encrypted ← decBool (jGet fs "encrypted")
  let replicationStatus ← decStr (jGet fs "replication_status")
  let consistencyGroupID ← decStr (jGet fs "consistencygroup_id")
  let multiattach ← decBool (jGet fs "multiattach")
  let volumeImageMetadata ← decJsonMap (jGet fs "volume_image_metadata")
  pure { id := id, status := status, size := size,
         availabilityZone := availabilityZone, createdAt := createdAt,
         updatedAt := updatedAt, attachments := attachments, name := name,
         description := description, volumeType := volumeType,
         snapshotID := snapshotID, sourceVolID := sourceVolID,
         metadata := metadata, userID := userID, bootable := bootable,
         encrypted := encrypted, replicationStatus := replicationStatus,
         consistencyGroupID := consistencyGroupID, multiattach := multiattach,
         volumeImageMetadata := volumeImageMetadata }

end volumes

/-- Outcome of a Go call that can return a value, return an error, or panic
(a failed unchecked interface type assertion panics). -/
inductive GoResult (α : Type) where
  | ok (val : α)
  | err (e : GoErr)
  | panics
deriving Repr

/-- The type `images.ImagePage`: a LinkedPageBase holding the request URL and the
page's raw body (the pagination plumbing lives in the pagination package,
outside this slice; per spec §3 a LinkPage is request URL plus RawBody,
and §4.2's ExtractInto decodes that RawBody into an arbitrary target shape). -/
structure ImagePage where
  url : String
  body : Json
deriving Repr

/-- The type `volumes.VolumePage`: the same LinkedPageBase shape. -/
structure VolumePage where
  url : String
  body : Json
deriving Repr

/-- A `pagination.Page` interface value: its dynamic type is ImagePage,
VolumePage, or some other implementor of the interface. -/
inductive Page where
  | imagePage (p : ImagePage)
  | volumePage (p : VolumePage)
  | otherPage (body : Json)
deriving Repr

namespace images

/-- One element of the `Images []Image` envelope field: each array element is
decoded through `Image.UnmarshalJSON` — which encoding/json invokes even on a
JSON null.  On null, `json.Unmarshal(b, &p)` leaves the transient pointer `p`
nil without error, and the struct copy `*s = Image(p.tmp)` then dereferences
nil: a run-time PANIC, not an error return. -/
def decodeImageElem : Json → GoResult Image
  | .obj fs =>
    match decodeImage fs with
    | .ok img => .ok img
    | .error e => .err e
  | .null => .panics
  | v => .err (.unmarshalType (jsonKind v) "images.Image")

/-- Element-wise array decode with Go's run-time semantics: elements are
processed in order, and the first non-value outcome — an error return or a
panic — aborts the whole traversal. -/
def goMapM {α β : Type} (f : α → GoResult β) : List α → GoResult (List β)
  | [] => .ok []
  | x :: xs =>
    match f x with
    | .panics => .panics
    | .err e => .err e
    | .ok y =>
      match goMapM f xs with
      | .panics => .panics
      | .err e => .err e
      | .ok ys => .ok (y :: ys)

/-- The `ExtractInto` of the page body against `struct\x7b Images []Image \x7d`:
an absent or null "images" key leaves the nil slice; an array decodes
element-wise, aborting on the first failing element (and propagating the
panic a null element causes in `Image.UnmarshalJSON`). -/
def extractImagesBody : Json → GoResult (List Image)
  | .obj fs =>
    match jNullable (jGet fs "images") with
    | none => .ok []
    | some (.arr xs) => goMapM decodeImageElem xs
    | some v => .err (.unmarshalType (jsonKind v) "[]images.Image")
  | v => .err (.unmarshalType (jsonKind v) "struct")

/-- The function `ExtractImages(r pagination.Page)`: the unchecked assertion `r.(ImagePage)`
panics when the dynamic type differs; otherwise the envelope is decoded (that
decode may itself panic, see `decodeImageElem`). -/
def ExtractImages : Page → GoResult (List Image)
  | .imagePage p => extractImagesBody p.body
  | _ => .panics

/-- The method `ImagePage.IsEmpty`: `images, err := ExtractImages(r); return
len(images) == 0, err`.  With the multi-value return embedded as a result,
an extraction error is the returned error and a panic propagates. -/
def imagePageIsEmpty (r : ImagePage) : GoResult Bool :=
  match ExtractImages (.imagePage r) with
  | .ok imgs => .ok (imgs.length == 0)
  | .err e => .err e
  | .panics => .panics

/-- Leading-substring test used by the URL helper model. -/
def isAbsoluteURL (s : String) : Bool :=
  s.startsWith "http://" || s.startsWith "https://"

/-- Modelled from the spec: the images package's `nextPageURL` helper called
by `ImagePage.NextPageURL` is defined elsewhere in the package, outside this
slice.  Per §4.3 the next reference is resolved against the current page's
request URL when it is a relative fragment, and an absent or empty next is
the terminal page, yielding the empty locator. -/
def nextPageURL (currentURL next : String) : String :=
  if next = "" then ""
  else if isAbsoluteURL next then next
  else
    let scheme := currentURL.takeWhile (fun c => c ≠ '/')
    scheme ++ next

/-- The method `ImagePage.NextPageURL`: extract the `next` string from the body and
resolve it; a decode error surfaces as ("", err). -/
def imagePageNextPageURL (r : ImagePage) : Except GoErr String :=
  match r.body with
  | .obj fs => do
    let next ← decStr (jGet fs "next")
    pure (nextPageURL r.url next)
  | v => .error (.unmarshalType (jsonKind v) "struct")

end images

/-- Modelled from the spec: `gophercloud.Link` is declared in the gophercloud
root package, outside this slice.  Per §6 pagination idiom (b), a link is a
\x7brel, href\x7d pair. -/
structure Link where
  href : String
  rel : String
deriving DecidableEq, Repr

/-- Decode one Link object. -/
def decodeLinkElem : Json → Except GoErr Link
  | .obj fs => do
    let href ← decStr (jGet fs "href")
    let rel ← decStr (jGet fs "rel")
    pure { href := href, rel := rel }
  | v => .error (.unmarshalType (jsonKind v) "gophercloud.Link")

/-- Decode a `[]gophercloud.Link` struct field. -/
def decLinks : Option Json → Except GoErr (List Link)
  | none => .ok []
  | some .null => .ok []
  | some (.arr xs) => exceptMapM decodeLinkElem xs
  | some v => .error (.unmarshalType (jsonKind v) "[]gophercloud.Link")

/-- Modelled from the spec: `gophercloud.ExtractNextURL` is declared in the
gophercloud root package, outside this slice.  Per §4.3/§6 the `next`
relation's href is the next-page locator, and the absence of a `next`
relation is the terminal page: an empty locator, not an error. -/
def ExtractNextURL (links : List Link) : Except GoErr String :=
  match links.find? (fun l => l.rel == "next") with
  | some l => .ok l.href
  | none => .ok ""

namespace volumes

/-- The zero `volumes.Volume`. -/
def zeroVolume : Volume :=
  { id := "", status := "", size := 0, availabilityZone := "",
    createdAt := zeroGoTime, updatedAt := zeroGoTime, attachments := [],
    name := "", description := "", volumeType := "", snapshotID := "",
    sourceVolID := "", metadata := [], userID := "", bootable := "",
    encrypted := false, replicationStatus := "", consistencyGroupID := "",
    multiattach := false, volumeImageMetadata := [] }

/-- One element of the `Volumes []Volume` envelope field.  Volume has no
custom UnmarshalJSON, so encoding/json decodes a JSON null element as a
silent no-op: the zero Volume, with no error. -/
def decodeVolumeElem : Json → Except GoErr Volume
  | .obj fs => decodeVolume fs
  | .null => .ok zeroVolume
  | v => .error (.unmarshalType (jsonKind v) "volumes.Volume")

/-- The `ExtractInto` of the page body against `struct\x7b Volumes []Volume \x7d`. -/
def extractVolumesBody : Json → Except GoErr (List Volume)
  | .obj fs =>
    match jNullable (jGet fs "volumes") with
    | none => .ok []
    | some (.arr xs) => exceptMapM decodeVolumeElem xs
    | some v => .error (.unmarshalType (jsonKind v) "[]volumes.Volume")
  | v => .error (.unmarshalType (jsonKind v) "struct")

/-- The function `ExtractVolumes(r pagination.Page)`: unchecked assertion `r.(VolumePage)`
then envelope decode. -/
def ExtractVolumes : Page → GoResult (List Volume)
  | .volumePage p =>
    match extractVolumesBody p.body with
    | .ok vols => .ok vols
    | .error e => .err e
  | _ => .panics

/-- The method `VolumePage.IsEmpty`: `volumes, err := ExtractVolumes(r); return
len(volumes) == 0, err`. -/
def volumePageIsEmpty (r : VolumePage) : GoResult Bool :=
  match ExtractVolumes (.volumePage r) with
  | .ok vols => .ok (vols.length == 0)
  | .err e => .err e
  | .panics => .panics

/-- The method `VolumePage.NextPageURL`: extract the `volumes_links` list from the body
and take the `next` relation's href through `gophercloud.ExtractNextURL`. -/
def volumePageNextPageURL (r : VolumePage) : Except GoErr String :=
  match r.body with
  | .obj fs => do
    let links ← decLinks (jGet fs "volumes_links")
    ExtractNextURL links
  | v => .error (.unmarshalType (jsonKind v) "struct")

end volumes

/-! Association-list facts used to characterize the Go-map steps. -/

theorem alookup_cons {α : Type} (kv : String × α) (rest : List (String × α)) (k : String) :
    alookup (kv :: rest) k =
      match alookup rest k with
      | some v => some v
      | none => if kv.1 = k then some kv.2 else none := rfl

theorem alookup_append {α : Type} (l1 l2 : List (String × α)) (k : String) :
    alookup (l1 ++ l2) k =
      match alookup l2 k with
      | some v => some v
      | none => alookup l1 k := by
  induction l1 with
  | nil =>
    simp only [List.nil_append]
    cases alookup l2 k <;> simp [alookup]
  | cons kv rest ih =>
    simp only [List.cons_append, alookup_cons, ih]
    cases alookup l2 k <;> cases alookup rest k <;> simp

theorem alookup_eq_none_iff {α : Type} (l : List (String × α)) (k : String) :
    alookup l k = none ↔ k ∉ l.map Prod.fst := by
  induction l with
  | nil => simp [alookup]
  | cons kv rest ih =>
    rw [alookup_cons]
    constructor
    · intro h
      cases hr : alookup rest k with
      | some v =>
        rw [hr] at h
        exact Option.noConfusion h
      | none =>
        rw [hr] at h
        have hk : kv.1 ≠ k := by
          intro hc
          rw [if_pos hc] at h
          exact Option.noConfusion h
        simp only [List.map_cons, List.mem_cons]
        push_neg
        exact ⟨fun hc => hk hc.symm, (ih.mp hr)⟩
    · intro h
      simp only [List.map_cons, List.mem_cons] at h
      push_neg at h
      have hr : alookup rest k = none := ih.mpr h.2
      rw [hr]
      exact if_neg (fun hc => h.1 hc.symm)

theorem alookup_filter_key {α : Type} (P : String → Bool) (l : List (String × α)) (k : String) :
    alookup (l.filter (fun kv => P kv.1)) k =
      if P k then alookup l k else none := by
  induction l with
  | nil => simp [alookup]
  | cons kv rest ih =>
    by_cases hP : P kv.1
    · rw [List.filter_cons_of_pos (by simpa using hP)]
      rw [alookup_cons, alookup_cons, ih]
      by_cases hPk : P k
      · simp [hPk]
      · have hk : kv.1 ≠ k := fun hc => hPk (hc ▸ hP)
        simp [hPk, hk]
    · rw [List.filter_cons_of_neg (by simpa using hP)]
      rw [ih, alookup_cons]
      by_cases hPk : P k
      · have hk : kv.1 ≠ k := fun hc => hP (hc ▸ hPk)
        simp only [if_pos hPk]
        cases alookup rest k <;> simp [hk]
      · simp [hPk]

theorem alookup_mapUpsert {α : Type} (acc : List (String × α)) (kv : String × α) (k : String) :
    alookup (mapUpsert acc kv) k =
      if kv.1 = k then some kv.2 else alookup acc k := by
  unfold mapUpsert
  rw [alookup_append]
  by_cases hk : kv.1 = k
  · simp [alookup, hk]
  · have h1 : alookup [kv] k = none := by simp [alookup, hk]
    rw [h1]
    have h2 := alookup_filter_key (fun s => decide (s ≠ kv.1)) acc k
    simp only [] at h2
    rw [if_neg hk]
    rw [h2]
    have : k ≠ kv.1 := fun hc => hk hc.symm
    simp [this]

theorem alookup_foldl_mapUpsert {α : Type} (l acc : List (String × α)) (k : String) :
    alookup (l.foldl mapUpsert acc) k =
      match alookup l k with
      | some v => some v
      | none => alookup acc k := by
  induction l generalizing acc with
  | nil => simp [alookup]
  | cons kv rest ih =>
    simp only [List.foldl_cons, ih, alookup_cons, alookup_mapUpsert]
    cases alookup rest k with
    | some v => simp
    | none => by_cases hk : kv.1 = k <;> simp [hk]

theorem alookup_dedupLastWins {α : Type} (l : List (String × α)) (k : String) :
    alookup (dedupLastWins l) k = alookup l k := by
  unfold dedupLastWins
  rw [alookup_foldl_mapUpsert]
  cases alookup l k <;> simp [alookup]

theorem keys_filter_key {α : Type} (P : String → Bool) (l : List (String × α)) :
    (l.filter (fun kv => P kv.1)).map Prod.fst = (l.map Prod.fst).filter P := by
  induction l with
  | nil => rfl
  | cons kv rest ih =>
    by_cases hP : P kv.1
    · rw [List.filter_cons_of_pos (by simpa using hP)]
      simp only [List.map_cons]
      rw [List.filter_cons_of_pos (by simpa using hP), ih]
    · rw [List.filter_cons_of_neg (by simpa using hP)]
      simp only [List.map_cons]
      rw [List.filter_cons_of_neg (by simpa using hP), ih]

theorem keys_mapUpsert_nodup {α : Type} (acc : List (String × α)) (kv : String × α)
    (h : (acc.map Prod.fst).Nodup) : ((mapUpsert acc kv).map Prod.fst).Nodup := by
  unfold mapUpsert
  rw [List.map_append]
  have hk := keys_filter_key (fun s => decide (s ≠ kv.1)) acc
  rw [hk]
  simp only [List.map_cons, List.map_nil]
  apply List.Nodup.append
  · exact h.filter _
  · simp
  · intro a ha hb
    simp only [List.mem_singleton] at hb
    subst hb
    have hmem := List.of_mem_filter ha
    simp at hmem

theorem keys_foldl_mapUpsert_nodup {α : Type} (l acc : List (String × α))
    (h : (acc.map Prod.fst).Nodup) : ((l.foldl mapUpsert acc).map Prod.fst).Nodup := by
  induction l generalizing acc with
  | nil => exact h
  | cons kv rest ih =>
    simp only [List.foldl_cons]
    exact ih _ (keys_mapUpsert_nodup acc kv h)

theorem keys_dedupLastWins_nodup {α : Type} (l : List (String × α)) :
    ((dedupLastWins l).map Prod.fst).Nodup :=
  keys_foldl_mapUpsert_nodup l [] (by simp)

/-- The first failing element of an `exceptMapM` fails the whole call. -/
theorem exceptMapM_error {α β : Type} (f : α → Except GoErr β) (xs : List α)
    (x : α) (e : GoErr) (hx : x ∈ xs) (hf : f x = .error e) :
    ∃ e2, exceptMapM f xs = .error e2 := by
  induction xs with
  | nil => cases hx
  | cons y ys ih =>
    rcases List.mem_cons.mp hx with rfl | hmem
    · refine ⟨e, ?_⟩
      simp [exceptMapM, hf, bind, Except.bind, Functor.map, Except.map]
    · cases hfy : f y with
      | error e3 =>
        refine ⟨e3, ?_⟩
        simp [exceptMapM, hfy, bind, Except.bind, Functor.map, Except.map]
      | ok b =>
        rcases ih hmem with ⟨e2, he2⟩
        refine ⟨e2, ?_⟩
        simp [exceptMapM, hfy, bind, Except.bind, he2, pure, Except.pure,
          Functor.map, Except.map]

theorem keys_filterMap_subset (F : String × Json → Option (String × String))
    (hF : ∀ kv b, F kv = some b → b.1 = kv.1)
    (l : List (String × Json)) :
    ((l.filterMap F).map Prod.fst) ⊆ l.map Prod.fst := by
  induction l with
  | nil => simp
  | cons kv rest ih =>
    rw [List.filterMap_cons]
    cases hFkv : F kv with
    | none =>
      intro a ha
      exact List.mem_cons_of_mem _ (ih ha)
    | some b =>
      intro a ha
      simp only [List.map_cons, List.mem_cons] at ha ⊢
      rcases ha with rfl | ha
      · exact Or.inl (hF kv b hFkv)
      · exact Or.inr (ih ha)

/-- Keeping only string values from an association list with distinct keys:
lookups pass through exactly on string-valued bindings. -/
theorem alookup_keepStrings {l : List (String × Json)}
    (hnd : (l.map Prod.fst).Nodup) (k : String) :
    alookup (l.filterMap (fun kv =>
      match kv.2 with
      | .str s => some (kv.1, s)
      | _ => none)) k =
      match alookup l k with
      | some (.str s) => some s
      | _ => none := by
  induction l with
  | nil => simp [alookup]
  | cons kv rest ih =>
    have hkey : kv.1 ∉ rest.map Prod.fst := by
      simp only [List.map_cons, List.nodup_cons] at hnd
      exact hnd.1
    have hnd2 : (rest.map Prod.fst).Nodup := by
      simp only [List.map_cons, List.nodup_cons] at hnd
      exact hnd.2
    have hsub := keys_filterMap_subset
      (fun kv => match kv.2 with | .str s => some (kv.1, s) | _ => none)
      (fun kv b hb => by
        rcases kv with ⟨k0, v0⟩
        cases v0 <;> first
          | exact Option.noConfusion hb
          | (cases hb; rfl)) rest
    rw [List.filterMap_cons]
    by_cases hk : kv.1 = k
    · subst hk
      have hr : alookup rest kv.1 = none := (alookup_eq_none_iff _ _).mpr hkey
      have hr2 : alookup (rest.filterMap (fun kv =>
          match kv.2 with
          | .str s => some (kv.1, s)
          | _ => none)) kv.1 = none :=
        (alookup_eq_none_iff _ _).mpr (fun hc => hkey (hsub hc))
      cases hv : kv.2 with
      | str s =>
        rw [alookup_cons, hr2, alookup_cons, hr]
        simp [hv]
      | null => rw [hr2, alookup_cons, hr]; simp [hv]
      | bool b => rw [hr2, alookup_cons, hr]; simp [hv]
      | num m e => rw [hr2, alookup_cons, hr]; simp [hv]
      | arr xs => rw [hr2, alookup_cons, hr]; simp [hv]
      | obj ofs => rw [hr2, alookup_cons, hr]; simp [hv]
    · cases hv : kv.2 with
      | str s =>
        simp only [hv, alookup_cons, ih hnd2]
        cases hrv : alookup rest k with
        | some v => simp only [hrv]; cases v <;> simp [hk]
        | none => simp only [hrv]; simp [hk]
      | null =>
        simp only [hv, alookup_cons, ih hnd2]
        cases hrv : alookup rest k with
        | some v => simp only [hrv]
        | none => simp only [hrv]; simp [hk]
      | bool b =>
        simp only [hv, alookup_cons, ih hnd2]
        cases hrv : alookup rest k with
        | some v => simp only [hrv]
        | none => simp only [hrv]; simp [hk]
      | num m e =>
        simp only [hv, alookup_cons, ih hnd2]
        cases hrv : alookup rest k with
        | some v => simp only [hrv]
        | none => simp only [hrv]; simp [hk]
      | arr xs =>
        simp only [hv, alookup_cons, ih hnd2]
        cases hrv : alookup rest k with
        | some v => simp only [hrv]
        | none => simp only [hrv]; simp [hk]
      | obj ofs =>
        simp only [hv, alookup_cons, ih hnd2]
        cases hrv : alookup rest k with
        | some v => simp only [hrv]
        | none => simp only [hrv]; simp [hk]

namespace images

/-- Full characterization of the extracted custom-property map: a key not in
the known-field set with a string value passes through; a known key or a
non-string value never appears. -/
theorem customProps_alookup (fs : List (String × Json)) (k : String) :
    alookup (unmarshalCustomProperties fs) k =
      if k ∈ knownFields then none
      else
        match jGet fs k with
        | some (.str s) => some s
        | _ => none := by
  unfold unmarshalCustomProperties
  simp only []
  have hnd : (((dedupLastWins fs).filter
      (fun kv => decide (kv.1 ∉ knownFields))).map Prod.fst).Nodup := by
    have hk := keys_filter_key (fun s => decide (s ∉ knownFields)) (dedupLastWins fs)
    rw [hk]
    exact (keys_dedupLastWins_nodup fs).filter _
  rw [alookup_keepStrings hnd k]
  have hf := alookup_filter_key (fun s => decide (s ∉ knownFields)) (dedupLastWins fs) k
  rw [hf, alookup_dedupLastWins]
  by_cases hmem : k ∈ knownFields
  · simp [hmem]
  · simp [hmem, jGet]

/-- Everything `decodeImageTmp` determines about a successful transient
decode: each field is exactly the decode of its wire key. -/
theorem decodeImageTmp_ok {fs : List (String × Json)} {p : ImageTmp}
    (h : decodeImageTmp fs = .ok p) :
    decStr (jGet fs "id") = .ok p.id ∧
    decStr (jGet fs "name") = .ok p.name ∧
    decStr (jGet fs "status") = .ok p.status ∧
    decStrList (jGet fs "tags") = .ok p.tags ∧
    decStr (jGet fs "container_format") = .ok p.containerFormat ∧
    decStr (jGet fs "disk_format") = .ok p.diskFormat ∧
    decInt64 (jGet fs "min_disk") = .ok p.minDiskGigabytes ∧
    decInt64 (jGet fs "min_ram") = .ok p.minRAMMegabytes ∧
    decStr (jGet fs "owner") = .ok p.owner ∧
    decBool (jGet fs "protected") = .ok p.protectedFlag ∧
    decStr (jGet fs "visibility") = .ok p.visibility ∧
    decStr (jGet fs "checksum") = .ok p.checksum ∧
    decStrMap (jGet fs "metadata") = .ok p.metadata ∧
    decStrMap (jGet fs "properties") = .ok p.properties ∧
    decStr (jGet fs "file") = .ok p.file ∧
    decStr (jGet fs "schema") = .ok p.schema ∧
    decInt64 (jGet fs "virtual_size") = .ok p.virtualSize ∧
    decStr (jGet fs "self") = .ok p.self ∧
    decStr (jGet fs "direct_url") = .ok p.directURL ∧
    decStrList (jGet fs "locations") = .ok p.locations ∧
    decStr (jGet fs "created_at") = .ok p.createdAtStr ∧
    decStr (jGet fs "updated_at") = .ok p.updatedAtStr ∧
    p.sizeRaw = jNullable (jGet fs "size") := by
  unfold decodeImageTmp at h
  simp only [bind, Except.bind, pure, Except.pure] at h
  cases h1 : decStr (jGet fs "id") with
  | error e => simp only [h1] at h; exact Except.noConfusion h
  | ok v1 =>
    simp only [h1] at h
    cases h2 : decStr (jGet fs "name") with
    | error e => simp only [h2] at h; exact Except.noConfusion h
    | ok v2 =>
      simp only [h2] at h
      cases h3 : decStr (jGet fs "status") with
      | error e => simp only [h3] at h; exact Except.noConfusion h
      | ok v3 =>
        simp only [h3] at h
        cases h4 : decStrList (jGet fs "tags") with
        | error e => simp only [h4] at h; exact Except.noConfusion h
        | ok v4 =>
          simp only [h4] at h
          cases h5 : decStr (jGet fs "container_format") with
          | error e => simp only [h5] at h; exact Except.noConfusion h
          | ok v5 =>
            simp only [h5] at h
            cases h6 : decStr (jGet fs "disk_format") with
            | error e => simp only [h6] at h; exact Except.noConfusion h
            | ok v6 =>
              simp only [h6] at h
              cases h7 : decInt64 (jGet fs "min_disk") with
              | error e => simp only [h7] at h; exact Except.noConfusion h
              | ok v7 =>
                simp only [h7] at h
                cases h8 : decInt64 (jGet fs "min_ram") with
                | error e => simp only [h8] at h; exact Except.noConfusion h
                | ok v8 =>
                  simp only [h8] at h
                  cases h9 : decStr (jGet fs "owner") with
                  | error e => simp only [h9] at h; exact Except.noConfusion h
                  | ok v9 =>
                    simp only [h9] at h
                    cases h10 : decBool (jGet fs "protected") with
                    | error e => simp only [h10] at h; exact Except.noConfusion h
                    | ok v10 =>
                      simp only [h10] at h
                      cases h11 : decStr (jGet fs "visibility") with
                      | error e => simp only [h11] at h; exact Except.noConfusion h
                      | ok v11 =>
                        simp only [h11] at h
                        cases h12 : decStr (jGet fs "checksum") with
                        | error e => simp only [h12] at h; exact Except.noConfusion h
                        | ok v12 =>
                          simp only [h12] at h
                          cases h13 : decStrMap (jGet fs "metadata") with
                          | error e => simp only [h13] at h; exact Except.noConfusion h
                          | ok v13 =>
                            simp only [h13] at h
                            cases h14 : decStrMap (jGet fs "properties") with
                            | error e => simp only [h14] at h; exact Except.noConfusion h
                            | ok v14 =>
                              simp only [h14] at h
                              cases h15 : decStr (jGet fs "file") with
                              | error e => simp only [h15] at h; exact Except.noConfusion h
                              | ok v15 =>
                                simp only [h15] at h
                                cases h16 : decStr (jGet fs "schema") with
                                | error e => simp only [h16] at h; exact Except.noConfusion h
                                | ok v16 =>
                                  simp only [h16] at h
                                  cases h17 : decInt64 (jGet fs "virtual_size") with
                                  | error e => simp only [h17] at h; exact Except.noConfusion h
                                  | ok v17 =>
                                    simp only [h17] at h
                                    cases h18 : decStr (jGet fs "self") with
                                    | error e => simp only [h18] at h; exact Except.noConfusion h
                                    | ok v18 =>
                                      simp only [h18] at h
                                      cases h19 : decStr (jGet fs "direct_url") with
                                      | error e => simp only [h19] at h; exact Except.noConfusion h
                                      | ok v19 =>
                                        simp only [h19] at h
                                        cases h20 : decStrList (jGet fs "locations") with
                                        | error e => simp only [h20] at h; exact Except.noConfusion h
                                        | ok v20 =>
                                          simp only [h20] at h
                                          cases h21 : decStr (jGet fs "created_at") with
                                          | error e => simp only [h21] at h; exact Except.noConfusion h
                                          | ok v21 =>
                                            simp only [h21] at h
                                            cases h22 : decStr (jGet fs "updated_at") with
                                            | error e => simp only [h22] at h; exact Except.noConfusion h
                                            | ok v22 =>
                                              simp only [h22] at h
                                              cases h
                                              exact ⟨rfl, rfl, rfl, rfl, rfl, rfl, rfl, rfl, rfl, rfl, rfl, rfl, rfl, rfl, rfl, rfl, rfl, rfl, rfl, rfl, rfl, rfl, rfl⟩

end images

end Gophercloud

namespace Gophercloud

/-- A `GoResult` that is an error return (neither a value nor a panic). -/
def GoResult.isErr {α : Type} : GoResult α → Bool
  | .err _ => true
  | _ => false

theorem ediv_cross {m1 m2 : Int} {e1 e2 : Nat}
    (h : m1 * 10 ^ e2 = m2 * 10 ^ e1) :
    m1 / ((10:Int) ^ e1) = m2 / ((10:Int) ^ e2) := by
  have hp1 : (0:Int) < 10 ^ e1 := by positivity
  have hp2 : (0:Int) < 10 ^ e2 := by positivity
  calc m1 / ((10:Int) ^ e1)
      = ((10:Int) ^ e2 * m1) / ((10:Int) ^ e2 * 10 ^ e1) :=
        (Int.mul_ediv_mul_of_pos _ _ hp2).symm
    _ = ((10:Int) ^ e1 * m2) / ((10:Int) ^ e1 * 10 ^ e2) := by
        rw [Int.mul_comm ((10:Int) ^ e2) m1, h, Int.mul_comm ((10:Int) ^ e2) ((10:Int) ^ e1),
          Int.mul_comm m2 ((10:Int) ^ e1)]
    _ = m2 / ((10:Int) ^ e2) := Int.mul_ediv_mul_of_pos _ _ hp1

/-- Truncation is a function of the numeric value: numerically equal decimal
lexemes truncate identically. -/
theorem truncDec_cross {m1 m2 : Int} {e1 e2 : Nat}
    (h : m1 * 10 ^ e2 = m2 * 10 ^ e1) : truncDec m1 e1 = truncDec m2 e2 := by
  unfold truncDec
  have hp1 : (0:Int) < 10 ^ e1 := by positivity
  have hp2 : (0:Int) < 10 ^ e2 := by positivity
  rcases Int.le_or_lt 0 m1 with hm | hm
  · have hm2 : 0 ≤ m2 := by
      by_contra hneg
      push_neg at hneg
      have hl : 0 ≤ m1 * 10 ^ e2 := Int.mul_nonneg hm (Int.le_of_lt hp2)
      have hr : m2 * 10 ^ e1 < 0 := Int.mul_neg_of_neg_of_pos hneg hp1
      omega
    rw [Int.tdiv_eq_ediv hm (Int.le_of_lt hp1), Int.tdiv_eq_ediv hm2 (Int.le_of_lt hp2)]
    exact ediv_cross h
  · have hm2 : m2 < 0 := by
      by_contra hneg
      push_neg at hneg
      have hl : m1 * 10 ^ e2 < 0 := Int.mul_neg_of_neg_of_pos hm hp2
      have hr : 0 ≤ m2 * 10 ^ e1 := Int.mul_nonneg hneg (Int.le_of_lt hp1)
      omega
    have e1' : m1.tdiv ((10:Int) ^ e1) = -((-m1).tdiv ((10:Int) ^ e1)) := by
      rw [Int.neg_tdiv, Int.neg_neg]
    have e2' : m2.tdiv ((10:Int) ^ e2) = -((-m2).tdiv ((10:Int) ^ e2)) := by
      rw [Int.neg_tdiv, Int.neg_neg]
    rw [e1', e2', Int.tdiv_eq_ediv (by omega) (Int.le_of_lt hp1),
      Int.tdiv_eq_ediv (by omega) (Int.le_of_lt hp2)]
    have h' : (-m1) * 10 ^ e2 = (-m2) * 10 ^ e1 := by
      rw [Int.neg_mul, Int.neg_mul, h]
    rw [ediv_cross h']

namespace images

/-- The two successful control paths of `Image.UnmarshalJSON`: the early
return on a nil size, and the full path for a float64 size with a parseable
`created_at` (whatever happens to `updated_at`). -/
theorem decodeImage_ok_cases {fs : List (String × Json)} {img : Image}
    (h : decodeImage fs = .ok img) :
    ∃ p, decodeImageTmp fs = .ok p ∧
      ((p.sizeRaw = none ∧ img = imageOfTmp p) ∨
       (∃ m e c, p.sizeRaw = some (.num m e) ∧
         rfc3339Parse p.createdAtStr = some c ∧
         img = { imageOfTmp p with
                   sizeBytes := truncDec m e, createdAt := c,
                   updatedAt := (rfc3339Parse p.updatedAtStr).getD zeroGoTime,
                   properties := unmarshalCustomProperties fs })) := by
  unfold decodeImage at h
  simp only [bind, Except.bind, pure, Except.pure] at h
  cases hp : decodeImageTmp fs with
  | error e => simp only [hp] at h; exact Except.noConfusion h
  | ok p =>
    simp only [hp] at h
    refine ⟨p, rfl, ?_⟩
    cases hsz : p.sizeRaw with
    | none =>
      simp only [hsz] at h
      cases h
      exact Or.inl ⟨rfl, rfl⟩
    | some v =>
      cases v with
      | num m e =>
        simp only [hsz] at h
        cases hc : rfc3339Parse p.createdAtStr with
        | none => simp only [hc] at h; exact Except.noConfusion h
        | some c =>
          simp only [hc] at h
          cases h
          exact Or.inr ⟨m, e, c, rfl, rfl, rfl⟩
      | null => simp only [hsz] at h; exact Except.noConfusion h
      | bool b => simp only [hsz] at h; exact Except.noConfusion h
      | str s => simp only [hsz] at h; exact Except.noConfusion h
      | arr xs => simp only [hsz] at h; exact Except.noConfusion h
      | obj ofs => simp only [hsz] at h; exact Except.noConfusion h

end images

end Gophercloud

namespace Gophercloud

namespace images

/-- The zero value of the transient decode struct (used by concrete payloads
in witnesses). -/
def emptyImageTmp : ImageTmp :=
  { id := "", name := "", status := "", tags := [], containerFormat := "",
    diskFormat := "", minDiskGigabytes := 0, minRAMMegabytes := 0, owner := "",
    protectedFlag := false, visibility := "", checksum := "", metadata := [],
    properties := [], file := "", schema := "", virtualSize := 0, self := "",
    directURL := "", locations := [], sizeRaw := none, createdAtStr := "",
    updatedAtStr := "" }

/-- C1: the code's actual behaviour on the two timestamp corner cases.
With `size` present: a malformed `updated_at` does NOT fail the decode (the
`time.Parse` error is assigned to `err` and immediately overwritten by the
`unmarshalCustomProperties` call), leaving `UpdatedAt` at the zero time; and
an entirely absent `created_at` DOES fail the decode, because `time.Parse` is
applied to the empty string. -/
theorem C1_timestamp_code_eval :
    (decodeImage [("size", Json.num 1 0),
        ("created_at", Json.str "2014-01-01T00:00:00Z"),
        ("updated_at", Json.str "bogus")]).toOption.map Image.updatedAt =
      some zeroGoTime ∧
    decodeImage [("size", Json.num 1 0)] = .error (.timeParse "") := by
  exact ⟨rfl, rfl⟩

/-- C2 counterexample: the payload `\x7b"foo": "bar"\x7d` decodes successfully
(the absent size takes the early return), yet "foo" — an unknown top-level key
with a string value — does not appear in Properties, because custom-property
extraction never ran. -/
theorem C2_counterexample :
    (decodeImage [("foo", Json.str "bar")]).toOption.map
      (fun img => alookup img.properties "foo") = some none := rfl

/-- C2 (amended: restricted to payloads whose `size` field is present and
non-null, so that `unmarshalCustomProperties` runs): the Properties map
contains exactly the top-level keys outside the known-field set whose values
are JSON strings; known keys never appear, and non-string leftovers are
dropped without error. -/
theorem C2_properties_characterization {fs : List (String × Json)} {img : Image}
    {v : Json} (hdec : decodeImage fs = .ok img)
    (hsize : jGet fs "size" = some v) (hnn : v ≠ Json.null) (k : String) :
    alookup img.properties k =
      if k ∈ knownFields then none
      else
        match jGet fs k with
        | some (.str s) => some s
        | _ => none := by
  obtain ⟨p, hp, hbr⟩ := decodeImage_ok_cases hdec
  have hsr : p.sizeRaw = some v := by
    have h23 := (decodeImageTmp_ok hp).2.2.2.2.2.2.2.2.2.2.2.2.2.2.2.2.2.2.2.2.2.2
    rw [h23, hsize]
    cases v <;> simp [jNullable] at hnn ⊢
  rcases hbr with ⟨hnone, _⟩ | ⟨m, e, c, _, _, himg⟩
  · rw [hnone] at hsr
    exact Option.noConfusion hsr
  · have hprops : img.properties = unmarshalCustomProperties fs := by
      rw [himg]
    rw [hprops]
    exact customProps_alookup fs k

def c2fs : List (String × Json) :=
  [("size", Json.num 1 0), ("created_at", Json.str "2014-01-01T00:00:00Z"),
   ("foo", Json.str "bar")]

def c2img : Image :=
  { id := "", name := "", status := "", tags := [], containerFormat := "",
    diskFormat := "", minDiskGigabytes := 0, minRAMMegabytes := 0, owner := "",
    protectedFlag := false, visibility := "", checksum := "", sizeBytes := 1,
    metadata := [], properties := [("foo", "bar")],
    createdAt := { year := 2014, month := 1, day := 1, hour := 0, minute := 0,
                   second := 0, nanos := 0, offsetMin := 0 },
    updatedAt := zeroGoTime, file := "", schema := "", virtualSize := 0,
    self := "", directURL := "", locations := [] }

theorem C2_witness :
    alookup c2img.properties "foo" = some "bar" ∧
    alookup c2img.properties "size" = none := by
  constructor
  · have h := @C2_properties_characterization c2fs c2img (Json.num 1 0) rfl rfl
      (fun hx => Json.noConfusion hx) "foo"
    rw [h]
    decide
  · have h := @C2_properties_characterization c2fs c2img (Json.num 1 0) rfl rfl
      (fun hx => Json.noConfusion hx) "size"
    rw [h]
    decide

/-- C3 counterexample: with `size` absent, the early return copies the
transient struct verbatim, so a literal top-level "properties" object in the
payload survives into `Image.Properties` — it is NOT left nil. -/
theorem C3_counterexample :
    (decodeImage [("properties", Json.obj [("a", Json.str "b")])]).toOption.map
      Image.properties = some [("a", "b")] ∧
    some [("a", "b")] ≠ some ([] : List (String × String)) := by
  exact ⟨rfl, by decide⟩

/-- C3 (amended: Properties is not always nil — it holds whatever the
payload's literal "properties" object decoded to): when `size` is absent or
null, `Image.UnmarshalJSON` returns success right after the struct copy;
the timestamps stay at the zero time even when `created_at`/`updated_at`
strings (malformed or not) are present, SizeBytes stays 0, and Properties is
exactly the transient struct's decoded "properties" field (nil when that key
is absent). -/
theorem C3_size_absent_early_return {fs : List (String × Json)} {p : ImageTmp}
    (hp : decodeImageTmp fs = .ok p)
    (hsz : jNullable (jGet fs "size") = none) :
    decodeImage fs = .ok (imageOfTmp p) ∧
    (imageOfTmp p).createdAt = zeroGoTime ∧
    (imageOfTmp p).updatedAt = zeroGoTime ∧
    (imageOfTmp p).sizeBytes = 0 ∧
    (imageOfTmp p).properties = p.properties := by
  have hsr : p.sizeRaw = none := by
    have h23 := (decodeImageTmp_ok hp).2.2.2.2.2.2.2.2.2.2.2.2.2.2.2.2.2.2.2.2.2.2
    rw [h23, hsz]
  refine ⟨?_, rfl, rfl, rfl, rfl⟩
  unfold decodeImage
  simp only [bind, Except.bind, pure, Except.pure, hp, hsr]

def c3fs : List (String × Json) :=
  [("created_at", Json.str "bogus"), ("properties", Json.obj [("a", Json.str "b")])]

def c3tmp : ImageTmp :=
  { emptyImageTmp with createdAtStr := "bogus", properties := [("a", "b")] }

theorem C3_witness :
    decodeImage c3fs = .ok (imageOfTmp c3tmp) ∧
    (imageOfTmp c3tmp).createdAt = zeroGoTime ∧
    (imageOfTmp c3tmp).updatedAt = zeroGoTime ∧
    (imageOfTmp c3tmp).sizeBytes = 0 ∧
    (imageOfTmp c3tmp).properties = [("a", "b")] := by
  have h := @C3_size_absent_early_return c3fs c3tmp rfl rfl
  exact ⟨h.1, h.2.1, h.2.2.1, h.2.2.2.1, h.2.2.2.2⟩

/-- C4 counterexample: a JSON null for `size` does not fail the decode with a
type-mismatch error — it takes the nil early return and decodes successfully
with SizeBytes 0. -/
theorem C4_counterexample :
    (decodeImage [("size", Json.null)]).toOption.map Image.sizeBytes =
      some 0 := rfl

/-- C4 (amended: "any other JSON type" excludes null, which is
indistinguishable from an absent field after decoding into `interface\x7b\x7d`
and takes the early success return): an integer or floating-point number
lexeme is accepted and truncated toward zero; numerically equal wire
encodings yield the identical SizeBytes; any other non-null JSON type fails
with the "Unknown type for SizeBytes" error naming the observed Go type. -/
theorem C4_size_number_flexibility :
    (∀ (fs : List (String × Json)) (img : Image) (m : Int) (e : Nat),
      decodeImage fs = .ok img → jGet fs "size" = some (.num m e) →
      img.sizeBytes = truncDec m e) ∧
    (∀ (m1 : Int) (e1 : Nat) (m2 : Int) (e2 : Nat),
      numValEq m1 e1 m2 e2 → truncDec m1 e1 = truncDec m2 e2) ∧
    (∀ (fs : List (String × Json)) (p : ImageTmp) (v : Json),
      decodeImageTmp fs = .ok p → jGet fs "size" = some v →
      (∀ m e, v ≠ .num m e) → v ≠ .null →
      decodeImage fs = .error (.unknownSizeType (goTypeName v))) := by
  refine ⟨?_, ?_, ?_⟩
  · intro fs img m e hdec hsize
    obtain ⟨p, hp, hbr⟩ := decodeImage_ok_cases hdec
    have hsr : p.sizeRaw = some (.num m e) := by
      have h23 := (decodeImageTmp_ok hp).2.2.2.2.2.2.2.2.2.2.2.2.2.2.2.2.2.2.2.2.2.2
      rw [h23, hsize]
      rfl
    rcases hbr with ⟨hnone, _⟩ | ⟨m', e', c, hsr', _, himg⟩
    · rw [hnone] at hsr
      exact Option.noConfusion hsr
    · rw [hsr'] at hsr
      have hm : m' = m ∧ e' = e := by
        cases hsr
        exact ⟨rfl, rfl⟩
      rw [himg, hm.1, hm.2]
  · intro m1 e1 m2 e2 hv
    exact truncDec_cross hv
  · intro fs p v hp hsize hnum hnull
    have hsr : p.sizeRaw = some v := by
      have h23 := (decodeImageTmp_ok hp).2.2.2.2.2.2.2.2.2.2.2.2.2.2.2.2.2.2.2.2.2.2
      rw [h23, hsize]
      cases v <;> first
        | exact absurd rfl hnull
        | rfl
    cases v with
    | null => exact absurd rfl hnull
    | num m e => exact absurd rfl (hnum m e)
    | bool b =>
      unfold decodeImage
      simp only [bind, Except.bind, pure, Except.pure, hp, hsr]
    | str s =>
      unfold decodeImage
      simp only [bind, Except.bind, pure, Except.pure, hp, hsr]
    | arr xs =>
      unfold decodeImage
      simp only [bind, Except.bind, pure, Except.pure, hp, hsr]
    | obj ofs =>
      unfold decodeImage
      simp only [bind, Except.bind, pure, Except.pure, hp, hsr]

def c4fsInt : List (String × Json) :=
  [("size", Json.num 1073741824 0), ("created_at", Json.str "2014-01-01T00:00:00Z")]

def c4fsFloat : List (String × Json) :=
  [("size", Json.num 10737418240 1), ("created_at", Json.str "2014-01-01T00:00:00Z")]

def c4imgInt : Image :=
  { c2img with sizeBytes := 1073741824, properties := [] }

def c4imgFloat : Image :=
  { c2img with sizeBytes := 1073741824, properties := [] }

def c4tmpStr : ImageTmp :=
  { emptyImageTmp with sizeRaw := some (Json.str "big") }

theorem C4_witness :
    c4imgInt.sizeBytes = truncDec 1073741824 0 ∧
    c4imgFloat.sizeBytes = truncDec 10737418240 1 ∧
    truncDec 10737418240 1 = truncDec 1073741824 0 ∧
    decodeImage [("size", Json.str "big")] =
      .error (.unknownSizeType "string") := by
  refine ⟨?_, ?_, ?_, ?_⟩
  · exact C4_size_number_flexibility.1 c4fsInt c4imgInt 1073741824 0 rfl rfl
  · exact C4_size_number_flexibility.1 c4fsFloat c4imgFloat 10737418240 1 rfl rfl
  · exact C4_size_number_flexibility.2.1 10737418240 1 1073741824 0 (by decide)
  · exact C4_size_number_flexibility.2.2 [("size", Json.str "big")] c4tmpStr
      (Json.str "big") rfl rfl (fun m e hx => Json.noConfusion hx)
      (fun hx => Json.noConfusion hx)

/-- C10 counterexample: a payload with a top-level "tmp" string key CAN end
up with "tmp" in Properties — when `size` is absent, the early return keeps
the literal "properties" object, and that object may itself contain "tmp". -/
theorem C10_counterexample :
    (decodeImage [("tmp", Json.str "y"),
        ("properties", Json.obj [("tmp", Json.str "x")])]).toOption.map
      (fun img => alookup img.properties "tmp") = some (some "x") := rfl

/-- C10 (amended: restricted to decodes in which custom-property extraction
runs, i.e. `size` present and non-null): the top-level "tmp" key never
appears in Properties, because `jsonTagKeys` maps the untagged embedded field
of the transient struct to its lowercased field name "tmp", which is deleted
from the residual map alongside the genuine wire names. -/
theorem C10_tmp_never_in_properties {fs : List (String × Json)} {img : Image}
    {v : Json} (hdec : decodeImage fs = .ok img)
    (hsize : jGet fs "size" = some v) (hnn : v ≠ Json.null)
    (htmp : ∃ s, jGet fs "tmp" = some (Json.str s)) :
    alookup img.properties "tmp" = none := by
  obtain ⟨p, hp, hbr⟩ := decodeImage_ok_cases hdec
  have hsr : p.sizeRaw = some v := by
    have h23 := (decodeImageTmp_ok hp).2.2.2.2.2.2.2.2.2.2.2.2.2.2.2.2.2.2.2.2.2.2
    rw [h23, hsize]
    cases v <;> simp [jNullable] at hnn ⊢
  rcases hbr with ⟨hnone, _⟩ | ⟨m, e, c, _, _, himg⟩
  · rw [hnone] at hsr
    exact Option.noConfusion hsr
  · obtain ⟨s, hs⟩ := htmp
    have hprops : img.properties = unmarshalCustomProperties fs := by
      rw [himg]
    rw [hprops, customProps_alookup, hs]
    rw [if_pos (show ("tmp" : String) ∈ knownFields by decide)]

def c10fs : List (String × Json) :=
  [("size", Json.num 1 0), ("created_at", Json.str "2014-01-01T00:00:00Z"),
   ("tmp", Json.str "x")]

def c10img : Image :=
  { c2img with properties := [] }

theorem C10_witness : alookup c10img.properties "tmp" = none :=
  @C10_tmp_never_in_properties c10fs c10img (Json.num 1 0) rfl rfl
    (fun hx => Json.noConfusion hx) ⟨"x", rfl⟩

end images

end Gophercloud

namespace Gophercloud

/-- C5: emptiness checks and real extraction share decode semantics exactly,
for both page kinds: `IsEmpty` answers true precisely when the corresponding
extractor yields a zero-length slice, and it surfaces the very same error the
extractor produces. -/
theorem C5_isEmpty_refines_extract :
    (∀ r : ImagePage,
      (images.imagePageIsEmpty r = .ok true ↔
        images.ExtractImages (.imagePage r) = .ok ([] : List images.Image)) ∧
      (∀ e, images.imagePageIsEmpty r = .err e ↔
        images.ExtractImages (.imagePage r) = .err e)) ∧
    (∀ r : VolumePage,
      (volumes.volumePageIsEmpty r = .ok true ↔
        volumes.ExtractVolumes (.volumePage r) = .ok ([] : List volumes.Volume)) ∧
      (∀ e, volumes.volumePageIsEmpty r = .err e ↔
        volumes.ExtractVolumes (.volumePage r) = .err e)) := by
  constructor
  · intro r
    constructor
    · unfold images.imagePageIsEmpty
      cases hE : images.ExtractImages (.imagePage r) with
      | ok l => simp [hE, List.length_eq_zero]
      | err e => simp [hE]
      | panics => simp [hE]
    · intro e
      unfold images.imagePageIsEmpty
      cases hE : images.ExtractImages (.imagePage r) with
      | ok l => simp [hE]
      | err e2 => simp [hE]
      | panics => simp [hE]
  · intro r
    constructor
    · unfold volumes.volumePageIsEmpty
      cases hE : volumes.ExtractVolumes (.volumePage r) with
      | ok l => simp [hE, List.length_eq_zero]
      | err e => simp [hE]
      | panics => simp [hE]
    · intro e
      unfold volumes.volumePageIsEmpty
      cases hE : volumes.ExtractVolumes (.volumePage r) with
      | ok l => simp [hE]
      | err e2 => simp [hE]
      | panics => simp [hE]

/-- A failing—erroring—element means the array decode never yields a value
slice, whatever the other elements do. -/
theorem goMapM_no_ok {α β : Type} (f : α → GoResult β) (xs : List α)
    (x : α) (e : GoErr) (hx : x ∈ xs) (hf : f x = .err e) :
    ∀ l, images.goMapM f xs ≠ .ok l := by
  induction xs with
  | nil => cases hx
  | cons y ys ih =>
    intro l
    rcases List.mem_cons.mp hx with rfl | hmem
    · simp [images.goMapM, hf]
    · cases hfy : f y with
      | panics => simp [images.goMapM, hfy]
      | err e2 => simp [images.goMapM, hfy]
      | ok b =>
        simp only [images.goMapM, hfy]
        cases hm : images.goMapM f ys with
        | panics => simp
        | err e2 => simp
        | ok l2 => exact (ih hmem l2 hm).elim

/-- With no panicking element, the first failing element makes the whole
array decode an error return. -/
theorem goMapM_err_of_no_panic {α β : Type} (f : α → GoResult β) (xs : List α)
    (x : α) (e : GoErr) (hx : x ∈ xs) (hf : f x = .err e)
    (hnp : ∀ y ∈ xs, f y ≠ .panics) :
    ∃ e2, images.goMapM f xs = .err e2 := by
  induction xs with
  | nil => cases hx
  | cons y ys ih =>
    rcases List.mem_cons.mp hx with rfl | hmem
    · exact ⟨e, by simp [images.goMapM, hf]⟩
    · cases hfy : f y with
      | panics => exact absurd hfy (hnp y (by simp))
      | err e2 => exact ⟨e2, by simp [images.goMapM, hfy]⟩
      | ok b =>
        obtain ⟨e2, he2⟩ :=
          ih hmem (fun z hz => hnp z (List.mem_cons_of_mem y hz))
        exact ⟨e2, by simp [images.goMapM, hfy, he2]⟩

/-- An image array element makes `Image.UnmarshalJSON` panic exactly when it
is the JSON null literal. -/
theorem decodeImageElem_panics_iff (y : Json) :
    images.decodeImageElem y = .panics ↔ y = Json.null := by
  cases y with
  | null => simp [images.decodeImageElem]
  | obj fs =>
    cases h : images.decodeImage fs <;>
      simp [images.decodeImageElem, h]
  | bool b => simp [images.decodeImageElem]
  | num m e => simp [images.decodeImageElem]
  | str s => simp [images.decodeImageElem]
  | arr xs => simp [images.decodeImageElem]

/-- C6 counterexample: the number element 5 of the images array fails to
decode with a type error, yet the whole call does not return an error — the
earlier null element makes `Image.UnmarshalJSON` panic first, so no error
value is ever returned to the caller. -/
theorem C6_counterexample :
    images.decodeImageElem (Json.num 5 0) =
      .err (.unmarshalType "number" "images.Image") ∧
    images.ExtractImages (.imagePage
      { url := "",
        body := Json.obj [("images", Json.arr [Json.null, Json.num 5 0])] }) =
      .panics :=
  ⟨rfl, rfl⟩

/-- C6 (amended): a page body that decodes but holds one element of the
resource array that fails with a decode error never delivers a slice — and,
whenever no other element takes `Image.UnmarshalJSON`'s null-panic path, the
whole Collection Extractor call is an error return (all-or-nothing), for
both page kinds.  (Volume elements cannot panic: Volume has no custom
unmarshaler.) -/
theorem C6_element_decode_failure_fails_extract :
    (∀ (p : ImagePage) (fs : List (String × Json)) (xs : List Json) (x : Json)
        (e : GoErr),
      p.body = .obj fs → jGet fs "images" = some (.arr xs) → x ∈ xs →
      images.decodeImageElem x = .err e →
      (∀ l, images.ExtractImages (.imagePage p) ≠ .ok l) ∧
      ((∀ y ∈ xs, y ≠ Json.null) →
        (images.ExtractImages (.imagePage p)).isErr = true)) ∧
    (∀ (p : VolumePage) (fs : List (String × Json)) (xs : List Json) (x : Json)
        (e : GoErr),
      p.body = .obj fs → jGet fs "volumes" = some (.arr xs) → x ∈ xs →
      volumes.decodeVolumeElem x = .error e →
      (volumes.ExtractVolumes (.volumePage p)).isErr = true) := by
  constructor
  · intro p fs xs x e hb harr hx hdx
    constructor
    · intro l
      simp only [images.ExtractImages, images.extractImagesBody, hb, harr,
        jNullable]
      exact goMapM_no_ok images.decodeImageElem xs x e hx hdx l
    · intro hnull
      obtain ⟨e2, he2⟩ := goMapM_err_of_no_panic images.decodeImageElem xs x e
        hx hdx
        (fun y hy hc => (hnull y hy) ((decodeImageElem_panics_iff y).mp hc))
      simp only [images.ExtractImages, images.extractImagesBody, hb, harr,
        jNullable, he2]
      rfl
  · intro p fs xs x e hb harr hx hdx
    obtain ⟨e2, he2⟩ := exceptMapM_error volumes.decodeVolumeElem xs x e hx hdx
    simp only [volumes.ExtractVolumes, volumes.extractVolumesBody, hb, harr,
      jNullable, he2]
    rfl

def c6ipage : ImagePage :=
  { url := "http://h/v2/images", body := .obj [("images", .arr [Json.num 5 0])] }

def c6vpage : VolumePage :=
  { url := "http://h/v2/volumes", body := .obj [("volumes", .arr [Json.bool true])] }

theorem C6_witness :
    (images.ExtractImages (.imagePage c6ipage)).isErr = true ∧
    (volumes.ExtractVolumes (.volumePage c6vpage)).isErr = true := by
  constructor
  · exact (C6_element_decode_failure_fails_extract.1 c6ipage
      [("images", .arr [Json.num 5 0])] [Json.num 5 0] (Json.num 5 0)
      (.unmarshalType "number" "images.Image") rfl rfl
      (List.mem_singleton.mpr rfl) rfl).2
      (by
        intro y hy
        rw [List.mem_singleton] at hy
        subst hy
        exact fun hc => Json.noConfusion hc)
  · exact C6_element_decode_failure_fails_extract.2 c6vpage
      [("volumes", .arr [Json.bool true])] [Json.bool true] (Json.bool true)
      (.unmarshalType "bool" "volumes.Volume") rfl rfl
      (List.mem_singleton.mpr rfl) rfl

/-- C7: pagination metadata that decodes but carries no next reference — an
absent, null or empty `next` string for image pages; no "next" relation among
`volumes_links` for volume pages — yields the empty locator with a nil
error, never an error. -/
theorem C7_no_next_reference_empty_locator :
    (∀ (r : ImagePage) (fs : List (String × Json)),
      r.body = .obj fs →
      (jGet fs "next" = none ∨ jGet fs "next" = some Json.null ∨
        jGet fs "next" = some (Json.str "")) →
      images.imagePageNextPageURL r = .ok "") ∧
    (∀ (r : VolumePage) (fs : List (String × Json)) (links : List Link),
      r.body = .obj fs →
      decLinks (jGet fs "volumes_links") = .ok links →
      (∀ l ∈ links, l.rel ≠ "next") →
      volumes.volumePageNextPageURL r = .ok "") := by
  constructor
  · intro r fs hb hnext
    unfold images.imagePageNextPageURL
    rw [hb]
    rcases hnext with h | h | h <;>
      simp [h, decStr, bind, Except.bind, pure, Except.pure, images.nextPageURL]
  · intro r fs links hb hlinks hnonext
    unfold volumes.volumePageNextPageURL
    rw [hb]
    simp only [hlinks, bind, Except.bind]
    unfold ExtractNextURL
    have hfind : links.find? (fun l => l.rel == "next") = none := by
      rw [List.find?_eq_none]
      intro l hl
      simpa using hnonext l hl
    rw [hfind]

theorem C7_witness :
    images.imagePageNextPageURL { url := "http://h/v2/images", body := Json.obj [] } =
      .ok "" ∧
    volumes.volumePageNextPageURL
      { url := "http://h/v2/volumes",
        body := Json.obj [("volumes_links",
          Json.arr [Json.obj [("href", Json.str "u"), ("rel", Json.str "self")]])] } =
      .ok "" := by
  constructor
  · exact C7_no_next_reference_empty_locator.1
      { url := "http://h/v2/images", body := Json.obj [] } [] rfl (Or.inl rfl)
  · exact C7_no_next_reference_empty_locator.2
      { url := "http://h/v2/volumes",
        body := Json.obj [("volumes_links",
          Json.arr [Json.obj [("href", Json.str "u"), ("rel", Json.str "self")]])] }
      [("volumes_links",
        Json.arr [Json.obj [("href", Json.str "u"), ("rel", Json.str "self")]])]
      [{ href := "u", rel := "self" }] rfl rfl
      (by
        intro l hl
        rw [List.mem_singleton] at hl
        subst hl
        decide)

/-- C9 counterexample: the matching concrete page type is NOT always handled
normally.  An ImagePage whose body is `\x7b"images": [null]\x7d` passes the
type assertion, but `Image.UnmarshalJSON` is invoked on the null element,
its inner unmarshal leaves the transient pointer nil, and the struct copy
dereferences nil: the call panics. -/
theorem C9_counterexample :
    images.ExtractImages (.imagePage
      { url := "", body := Json.obj [("images", Json.arr [Json.null])] }) =
      .panics := rfl

/-- C9 (amended: a non-matching dynamic type always panics at the assertion;
the matching type passes the assertion and is handed to envelope extraction —
which for ImagePage can itself panic on a JSON null array element, while for
VolumePage extraction never panics, Volume having no custom unmarshaler). -/
theorem C9_extract_type_assertion :
    (∀ r : Page, (∀ p, r ≠ .imagePage p) → images.ExtractImages r = .panics) ∧
    (∀ q : ImagePage,
      images.ExtractImages (.imagePage q) = images.extractImagesBody q.body) ∧
    (∀ r : Page, (∀ p, r ≠ .volumePage p) → volumes.ExtractVolumes r = .panics) ∧
    (∀ q : VolumePage, volumes.ExtractVolumes (.volumePage q) ≠ .panics) := by
  refine ⟨?_, ?_, ?_, ?_⟩
  · intro r hr
    cases r with
    | imagePage p => exact absurd rfl (hr p)
    | volumePage p => rfl
    | otherPage b => rfl
  · intro q
    rfl
  · intro r hr
    cases r with
    | imagePage p => rfl
    | volumePage p => exact absurd rfl (hr p)
    | otherPage b => rfl
  · intro q
    unfold volumes.ExtractVolumes
    cases hE : volumes.extractVolumesBody q.body <;> simp [hE]

theorem C9_witness :
    images.ExtractImages (.otherPage Json.null) = .panics ∧
    images.ExtractImages (.imagePage { url := "", body := Json.null }) =
      images.extractImagesBody Json.null ∧
    volumes.ExtractVolumes (.imagePage { url := "", body := Json.null }) = .panics ∧
    volumes.ExtractVolumes (.volumePage { url := "", body := Json.null }) ≠ .panics := by
  refine ⟨?_, ?_, ?_, ?_⟩
  · exact C9_extract_type_assertion.1 (.otherPage Json.null)
      (fun p h => Page.noConfusion h)
  · exact C9_extract_type_assertion.2.1 { url := "", body := Json.null }
  · exact C9_extract_type_assertion.2.2.1
      (.imagePage { url := "", body := Json.null }) (fun p h => Page.noConfusion h)
  · exact C9_extract_type_assertion.2.2.2 { url := "", body := Json.null }

end Gophercloud

namespace Gophercloud

/-- Is this JSON value a string? -/
def isStrB : Json → Bool
  | .str _ => true
  | _ => false

/-- The comparison `charListLt` is irreflexive. -/
theorem charListLt_irrefl : ∀ l : List Char, charListLt l l = false := by
  intro l
  induction l with
  | nil => rfl
  | cons a as ih =>
    simp only [charListLt, Nat.lt_irrefl, if_false]
    exact ih

/-- The comparison `charListLt` is asymmetric. -/
theorem charListLt_asymm :
    ∀ as bs : List Char, charListLt as bs = true → charListLt bs as = false := by
  intro as
  induction as with
  | nil =>
    intro bs h
    cases bs <;> rfl
  | cons a as2 ih =>
    intro bs h
    cases bs with
    | nil => exact absurd h (by simp [charListLt])
    | cons b bs2 =>
      simp only [charListLt] at h ⊢
      by_cases h1 : a.toNat < b.toNat
      · have h2 : ¬ b.toNat < a.toNat := by omega
        simp [h1, h2]
      · by_cases h2 : b.toNat < a.toNat
        · simp [h1, h2] at h
        · simp only [h1, h2, if_false] at h ⊢
          exact ih bs2 h

/-- The comparison `charListLt` is transitive. -/
theorem charListLt_trans :
    ∀ as bs cs : List Char, charListLt as bs = true → charListLt bs cs = true →
      charListLt as cs = true := by
  intro as
  induction as with
  | nil =>
    intro bs cs h1 h2
    cases cs with
    | nil =>
      cases bs with
      | nil => exact h1
      | cons b bs2 => exact absurd h2 (by simp [charListLt])
    | cons c cs2 => rfl
  | cons a as2 ih =>
    intro bs cs h1 h2
    cases bs with
    | nil => exact absurd h1 (by simp [charListLt])
    | cons b bs2 =>
      cases cs with
      | nil => exact absurd h2 (by simp [charListLt])
      | cons c cs2 =>
        simp only [charListLt] at h1 h2 ⊢
        by_cases hab : a.toNat < b.toNat
        · by_cases hbc : b.toNat < c.toNat
          · have : a.toNat < c.toNat := by omega
            simp [this]
          · by_cases hcb : c.toNat < b.toNat
            · simp [hbc, hcb] at h2
            · have hbceq : b.toNat = c.toNat := by omega
              have hac : a.toNat < c.toNat := by omega
              simp [hac]
        · by_cases hba : b.toNat < a.toNat
          · simp [hab, hba] at h1
          · have habeq : a.toNat = b.toNat := by omega
            simp only [hab, hba, if_false] at h1
            by_cases hbc : b.toNat < c.toNat
            · have hac : a.toNat < c.toNat := by omega
              simp [hac]
            · by_cases hcb : c.toNat < b.toNat
              · simp [hbc, hcb] at h2
              · have hac1 : ¬ a.toNat < c.toNat := by omega
                have hac2 : ¬ c.toNat < a.toNat := by omega
                simp only [hbc, hcb, if_false] at h2
                simp only [hac1, hac2, if_false]
                exact ih bs2 cs2 h1 h2

theorem strLtB_trans {a b c : String} (h1 : strLtB a b = true)
    (h2 : strLtB b c = true) : strLtB a c = true :=
  charListLt_trans a.toList b.toList c.toList h1 h2

theorem strLtB_ne {a b : String} (h : strLtB a b = true) : a ≠ b := by
  intro hc
  subst hc
  unfold strLtB at h
  rw [charListLt_irrefl] at h
  exact Bool.noConfusion h

theorem strLtB_asymm {a b : String} (h : strLtB a b = true) :
    strLtB b a = false :=
  charListLt_asymm a.toList b.toList h

/-- Strictly increasing key list (hence duplicate-free), the order in which
`json.Marshal` emits Go map keys. -/
def keysStrictSorted : List String → Bool
  | [] => true
  | [_] => true
  | a :: b :: r => strLtB a b && keysStrictSorted (b :: r)

theorem keysStrictSorted_cons {a b : String} {r : List String} :
    keysStrictSorted (a :: b :: r) = (strLtB a b && keysStrictSorted (b :: r)) :=
  rfl

theorem keysStrictSorted_tail {k : String} {ks : List String}
    (h : keysStrictSorted (k :: ks) = true) : keysStrictSorted ks = true := by
  cases ks with
  | nil => rfl
  | cons b r =>
    rw [keysStrictSorted_cons, Bool.and_eq_true] at h
    exact h.2

theorem keysStrictSorted_chain {a : String} {ks : List String}
    (h : keysStrictSorted (a :: ks) = true) : ∀ x ∈ ks, strLtB a x = true := by
  induction ks generalizing a with
  | nil => intro x hx; cases hx
  | cons b r ih =>
    intro x hx
    rw [keysStrictSorted_cons, Bool.and_eq_true] at h
    obtain ⟨hab, hbr⟩ := h
    rcases List.mem_cons.mp hx with rfl | hx'
    · exact hab
    · exact strLtB_trans hab (ih hbr x hx')

theorem keysStrictSorted_nodup {ks : List String}
    (h : keysStrictSorted ks = true) : ks.Nodup := by
  induction ks with
  | nil => simp
  | cons a r ih =>
    rw [List.nodup_cons]
    refine ⟨?_, ih (keysStrictSorted_tail h)⟩
    intro hmem
    exact absurd rfl (strLtB_ne (keysStrictSorted_chain h a hmem))

/-- Folding `mapUpsert` over bindings whose keys are fresh is plain
concatenation. -/
theorem foldl_mapUpsert_of_nodup {α : Type} :
    ∀ (l acc : List (String × α)),
      (acc.map Prod.fst ++ l.map Prod.fst).Nodup →
      l.foldl mapUpsert acc = acc ++ l := by
  intro l
  induction l with
  | nil =>
    intro acc _
    simp
  | cons kv rest ih =>
    intro acc h
    have hk : kv.1 ∉ acc.map Prod.fst := by
      rw [List.nodup_append] at h
      intro hc
      exact h.2.2 hc (by simp)
    have hup : mapUpsert acc kv = acc ++ [kv] := by
      unfold mapUpsert
      congr 1
      apply List.filter_eq_self.mpr
      intro e he
      simp only [decide_eq_true_eq]
      intro hc
      exact hk (hc ▸ List.mem_map_of_mem Prod.fst he)
    rw [List.foldl_cons, hup, ih (acc ++ [kv]) (by simpa using h)]
    simp

/-- A Go map built from bindings with distinct keys is those bindings. -/
theorem dedupLastWins_eq_self {α : Type} {l : List (String × α)}
    (h : (l.map Prod.fst).Nodup) : dedupLastWins l = l := by
  unfold dedupLastWins
  rw [foldl_mapUpsert_of_nodup l [] (by simpa using h)]
  simp

/-- Sorting a pair list whose keys are already strictly sorted is the
identity. -/
theorem sortPairs_sorted_self {l : List (String × String)}
    (h : keysStrictSorted (l.map Prod.fst) = true) : sortPairs l = l := by
  induction l with
  | nil => rfl
  | cons kv rest ih =>
    have ht : keysStrictSorted (rest.map Prod.fst) = true := by
      simp only [List.map_cons] at h
      exact keysStrictSorted_tail h
    unfold sortPairs at ih ⊢
    rw [List.foldr_cons, ih ht]
    cases rest with
    | nil => rfl
    | cons x xs =>
      have hlt : strLtB kv.1 x.1 = true := by
        simp only [List.map_cons] at h
        rw [keysStrictSorted_cons, Bool.and_eq_true] at h
        exact h.1
      have hle : strLeB kv.1 x.1 = true := by
        unfold strLeB
        rw [strLtB_asymm hlt]
        rfl
      unfold insertPairSorted
      rw [if_pos hle]

/-- A `[]string` whose wire form is all strings decodes losslessly and
re-encodes to the identical array. -/
theorem strList_roundtrip {xs : List Json} (h : xs.all isStrB = true) :
    ∃ ss : List String, exceptMapM decStrElem xs = .ok ss ∧
      ss.map Json.str = xs := by
  induction xs with
  | nil => exact ⟨[], rfl, rfl⟩
  | cons x rest ih =>
    rw [List.all_cons, Bool.and_eq_true] at h
    cases x with
    | str s =>
      obtain ⟨ss, hm, hmap⟩ := ih h.2
      refine ⟨s :: ss, ?_, by simp [hmap]⟩
      simp [exceptMapM, decStrElem, bind, Except.bind, hm, pure, Except.pure]
    | null => simp [isStrB] at h
    | bool b => simp [isStrB] at h
    | num m e => simp [isStrB] at h
    | arr ys => simp [isStrB] at h
    | obj ofs => simp [isStrB] at h

/-- The element-wise pass of a `map[string]string` decode on all-string
values: pairs in payload order, keys unchanged. -/
theorem strMap_pairs {entries : List (String × Json)}
    (h : entries.all (fun kv => isStrB kv.2) = true) :
    ∃ prs : List (String × String),
      exceptMapM (fun kv => do pure (kv.1, ← decStrElem kv.2)) entries = .ok prs ∧
      prs.map (fun kv => (kv.1, Json.str kv.2)) = entries ∧
      prs.map Prod.fst = entries.map Prod.fst := by
  induction entries with
  | nil => exact ⟨[], rfl, rfl, rfl⟩
  | cons kv rest ih =>
    rw [List.all_cons, Bool.and_eq_true] at h
    obtain ⟨prs, hm, hmap, hkeys⟩ := ih h.2
    rcases kv with ⟨k0, v0⟩
    cases v0 with
    | str s =>
      refine ⟨(k0, s) :: prs, ?_, by simp [hmap], by simp [hkeys]⟩
      simp only [exceptMapM, bind, Except.bind, pure, Except.pure, decStrElem] at hm ⊢
      rw [hm]
    | null => simp [isStrB] at h
    | bool b => simp [isStrB] at h
    | num m e => simp [isStrB] at h
    | arr ys => simp [isStrB] at h
    | obj ofs => simp [isStrB] at h

/-- A `map[string]string` in canonical wire form — all values strings, keys
strictly sorted — decodes losslessly and re-encodes to the identical object. -/
theorem strMap_canonical_roundtrip {entries : List (String × Json)}
    (hstr : entries.all (fun kv => isStrB kv.2) = true)
    (hsort : keysStrictSorted (entries.map Prod.fst) = true) :
    ∃ prs, decStrMap (some (.obj entries)) = .ok prs ∧
      encodeStrMap prs = .obj entries := by
  obtain ⟨prs, hm, hmap, hkeys⟩ := strMap_pairs hstr
  have hknd : (prs.map Prod.fst).Nodup := by
    rw [hkeys]
    exact keysStrictSorted_nodup hsort
  refine ⟨prs, ?_, ?_⟩
  · simp only [decStrMap, bind, Except.bind, pure, Except.pure] at hm ⊢
    rw [hm]
    simp [dedupLastWins_eq_self hknd]
  · unfold encodeStrMap
    rw [sortPairs_sorted_self (by rw [hkeys]; exact hsort), hmap]

end Gophercloud

namespace Gophercloud

/-- An in-range integer lexeme decodes into an int64 field as itself. -/
theorem decInt64_num_ok {m : Int} (hlo : -(2 ^ 63) ≤ m) (hhi : m < 2 ^ 63) :
    decInt64 (some (.num m 0)) = .ok m := by
  simp only [decInt64]
  split
  · rfl
  · rename_i hcond
    exact absurd ⟨by trivial, hlo, hhi⟩ hcond

/-- The wire names a re-encode can reproduce: every modeled attribute except
the timestamps (excluded from marshalling by their `json:"-"` tags) and
Properties (rebuilt from the residual custom keys, not from the payload's
"properties" field). -/
def roundTripKeys : List String :=
  ["id", "name", "status", "tags", "container_format", "disk_format",
   "min_disk", "min_ram", "owner", "protected", "visibility", "checksum",
   "size", "metadata", "file", "schema", "virtual_size", "self",
   "direct_url", "locations"]

/-- The string-typed modeled wire names. -/
def strKeys : List String :=
  ["id", "name", "status", "container_format", "disk_format", "owner",
   "visibility", "checksum", "file", "schema", "self", "direct_url"]

/-- The strictly integer-typed modeled wire names (decoded via
strconv.ParseInt). -/
def intKeys : List String :=
  ["min_disk", "min_ram", "virtual_size"]

/-- A payload value in the canonical wire form for its field: the JSON type
the field decodes from without loss and re-encodes verbatim.  Strings for
string fields; integer lexemes in int64 range for int fields; an integer
lexeme within float64's exact range for size; a bool for protected;
all-string arrays for tags/locations; an all-string, key-sorted object for
metadata. -/
def canonicalFieldValue (k : String) (v : Json) : Bool :=
  if k ∈ strKeys then isStrB v
  else if k ∈ intKeys then
    match v with
    | .num m e => decide (e = 0) && decide (-(2 ^ 63) ≤ m) && decide (m < 2 ^ 63)
    | _ => false
  else if k = "size" then
    match v with
    | .num m e => decide (e = 0) && decide (m.natAbs ≤ 2 ^ 53)
    | _ => false
  else if k = "protected" then
    match v with
    | .bool _ => true
    | _ => false
  else if k = "tags" ∨ k = "locations" then
    match v with
    | .arr xs => xs.all isStrB
    | _ => false
  else if k = "metadata" then
    match v with
    | .obj entries =>
      (entries.all fun kv => isStrB kv.2) && keysStrictSorted (entries.map Prod.fst)
    | _ => false
  else false

/-- C8 (amended: decode-then-re-encode round-trips every modeled attribute
other than the `json:"-"` timestamps and the rebuilt Properties field, for
payload values in the field's canonical wire form — in particular an
integral, exactly-representable size): for every successfully decoded
payload, each such key present in the payload is reproduced exactly by
re-encoding the decoded entity. -/
theorem C8_canonical_roundtrip {fs : List (String × Json)} {img : images.Image}
    {k : String} {v : Json}
    (hdec : images.decodeImage fs = .ok img) (hk : k ∈ roundTripKeys)
    (hv : jGet fs k = some v) (hcan : canonicalFieldValue k v = true) :
    jGet (images.encodeImage img) k = some v := by
  obtain ⟨p, hp, hbr⟩ := images.decodeImage_ok_cases hdec
  obtain ⟨h1, h2, h3, h4, h5, h6, h7, h8, h9, h10, h11, h12, h13, h14, h15, h16, h17, h18, h19, h20, h21, h22, h23⟩ := images.decodeImageTmp_ok hp
  fin_cases hk
  · -- k = "id"
    cases v with
    | str s =>
      rw [hv] at h1
      simp only [decStr, Except.ok.injEq] at h1
      have hiv : img.id = p.id := by
        rcases hbr with ⟨-, rfl⟩ | ⟨m', e', c', -, -, rfl⟩ <;> rfl
      have hcomp : jGet (images.encodeImage img) "id" =
          some (Json.str img.id) := rfl
      rw [hcomp, hiv, ← h1]
    | null => exact Bool.noConfusion hcan
    | bool b0 => exact Bool.noConfusion hcan
    | num m0 e0 => exact Bool.noConfusion hcan
    | arr xs0 => exact Bool.noConfusion hcan
    | obj ofs0 => exact Bool.noConfusion hcan
  · -- k = "name"
    cases v with
    | str s =>
      rw [hv] at h2
      simp only [decStr, Except.ok.injEq] at h2
      have hiv : img.name = p.name := by
        rcases hbr with ⟨-, rfl⟩ | ⟨m', e', c', -, -, rfl⟩ <;> rfl
      have hcomp : jGet (images.encodeImage img) "name" =
          some (Json.str img.name) := rfl
      rw [hcomp, hiv, ← h2]
    | null => exact Bool.noConfusion hcan
    | bool b0 => exact Bool.noConfusion hcan
    | num m0 e0 => exact Bool.noConfusion hcan
    | arr xs0 => exact Bool.noConfusion hcan
    | obj ofs0 => exact Bool.noConfusion hcan
  · -- k = "status"
    cases v with
    | str s =>
      rw [hv] at h3
      simp only [decStr, Except.ok.injEq] at h3
      have hiv : img.status = p.status := by
        rcases hbr with ⟨-, rfl⟩ | ⟨m', e', c', -, -, rfl⟩ <;> rfl
      have hcomp : jGet (images.encodeImage img) "status" =
          some (Json.str img.status) := rfl
      rw [hcomp, hiv, ← h3]
    | null => exact Bool.noConfusion hcan
    | bool b0 => exact Bool.noConfusion hcan
    | num m0 e0 => exact Bool.noConfusion hcan
    | arr xs0 => exact Bool.noConfusion hcan
    | obj ofs0 => exact Bool.noConfusion hcan
  · -- k = "tags"
    cases v with
    | arr xs0 =>
      have hall : xs0.all isStrB = true := hcan
      obtain ⟨ss, hm, hmap⟩ := strList_roundtrip hall
      rw [hv] at h4
      simp only [decStrList] at h4
      rw [hm] at h4
      injection h4 with hps
      have hiv : img.tags = p.tags := by
        rcases hbr with ⟨-, rfl⟩ | ⟨m', e', c', -, -, rfl⟩ <;> rfl
      have hcomp : jGet (images.encodeImage img) "tags" =
          some (Json.arr (img.tags.map Json.str)) := rfl
      rw [hcomp, hiv, ← hps, hmap]
    | null => exact Bool.noConfusion hcan
    | bool b0 => exact Bool.noConfusion hcan
    | num m0 e0 => exact Bool.noConfusion hcan
    | str s0 => exact Bool.noConfusion hcan
    | obj ofs0 => exact Bool.noConfusion hcan
  · -- k = "container_format"
    cases v with
    | str s =>
      rw [hv] at h5
      simp only [decStr, Except.ok.injEq] at h5
      have hiv : img.containerFormat = p.containerFormat := by
        rcases hbr with ⟨-, rfl⟩ | ⟨m', e', c', -, -, rfl⟩ <;> rfl
      have hcomp : jGet (images.encodeImage img) "container_format" =
          some (Json.str img.containerFormat) := rfl
      rw [hcomp, hiv, ← h5]
    | null => exact Bool.noConfusion hcan
    | bool b0 => exact Bool.noConfusion hcan
    | num m0 e0 => exact Bool.noConfusion hcan
    | arr xs0 => exact Bool.noConfusion hcan
    | obj ofs0 => exact Bool.noConfusion hcan
  · -- k = "disk_format"
    cases v with
    | str s =>
      rw [hv] at h6
      simp only [decStr, Except.ok.injEq] at h6
      have hiv : img.diskFormat = p.diskFormat := by
        rcases hbr with ⟨-, rfl⟩ | ⟨m', e', c', -, -, rfl⟩ <;> rfl
      have hcomp : jGet (images.encodeImage img) "disk_format" =
          some (Json.str img.diskFormat) := rfl
      rw [hcomp, hiv, ← h6]
    | null => exact Bool.noConfusion hcan
    | bool b0 => exact Bool.noConfusion hcan
    | num m0 e0 => exact Bool.noConfusion hcan
    | arr xs0 => exact Bool.noConfusion hcan
    | obj ofs0 => exact Bool.noConfusion hcan
  · -- k = "min_disk"
    cases v with
    | num m0 e0 =>
      have hcan0 : (decide (e0 = 0) && decide (-(2 ^ 63) ≤ m0) &&
          decide (m0 < 2 ^ 63)) = true := hcan
      rw [Bool.and_eq_true, Bool.and_eq_true, decide_eq_true_eq,
        decide_eq_true_eq, decide_eq_true_eq] at hcan0
      obtain ⟨⟨he, hlo⟩, hhi⟩ := hcan0
      subst he
      rw [hv, decInt64_num_ok hlo hhi] at h7
      injection h7 with hps
      have hiv : img.minDiskGigabytes = p.minDiskGigabytes := by
        rcases hbr with ⟨-, rfl⟩ | ⟨m', e', c', -, -, rfl⟩ <;> rfl
      have hcomp : jGet (images.encodeImage img) "min_disk" =
          some (Json.num img.minDiskGigabytes 0) := rfl
      rw [hcomp, hiv, ← hps]
    | null => exact Bool.noConfusion hcan
    | bool b0 => exact Bool.noConfusion hcan
    | str s0 => exact Bool.noConfusion hcan
    | arr xs0 => exact Bool.noConfusion hcan
    | obj ofs0 => exact Bool.noConfusion hcan
  · -- k = "min_ram"
    cases v with
    | num m0 e0 =>
      have hcan0 : (decide (e0 = 0) && decide (-(2 ^ 63) ≤ m0) &&
          decide (m0 < 2 ^ 63)) = true := hcan
      rw [Bool.and_eq_true, Bool.and_eq_true, decide_eq_true_eq,
        decide_eq_true_eq, decide_eq_true_eq] at hcan0
      obtain ⟨⟨he, hlo⟩, hhi⟩ := hcan0
      subst he
      rw [hv, decInt64_num_ok hlo hhi] at h8
      injection h8 with hps
      have hiv : img.minRAMMegabytes = p.minRAMMegabytes := by
        rcases hbr with ⟨-, rfl⟩ | ⟨m', e', c', -, -, rfl⟩ <;> rfl
      have hcomp : jGet (images.encodeImage img) "min_ram" =
          some (Json.num img.minRAMMegabytes 0) := rfl
      rw [hcomp, hiv, ← hps]
    | null => exact Bool.noConfusion hcan
    | bool b0 => exact Bool.noConfusion hcan
    | str s0 => exact Bool.noConfusion hcan
    | arr xs0 => exact Bool.noConfusion hcan
    | obj ofs0 => exact Bool.noConfusion hcan
  · -- k = "owner"
    cases v with
    | str s =>
      rw [hv] at h9
      simp only [decStr, Except.ok.injEq] at h9
      have hiv : img.owner = p.owner := by
        rcases hbr with ⟨-, rfl⟩ | ⟨m', e', c', -, -, rfl⟩ <;> rfl
      have hcomp : jGet (images.encodeImage img) "owner" =
          some (Json.str img.owner) := rfl
      rw [hcomp, hiv, ← h9]
    | null => exact Bool.noConfusion hcan
    | bool b0 => exact Bool.noConfusion hcan
    | num m0 e0 => exact Bool.noConfusion hcan
    | arr xs0 => exact Bool.noConfusion hcan
    | obj ofs0 => exact Bool.noConfusion hcan
  · -- k = "protected"
    cases v with
    | bool b0 =>
      rw [hv] at h10
      simp only [decBool, Except.ok.injEq] at h10
      have hiv : img.protectedFlag = p.protectedFlag := by
        rcases hbr with ⟨-, rfl⟩ | ⟨m', e', c', -, -, rfl⟩ <;> rfl
      have hcomp : jGet (images.encodeImage img) "protected" =
          some (Json.bool img.protectedFlag) := rfl
      rw [hcomp, hiv, ← h10]
    | null => exact Bool.noConfusion hcan
    | num m0 e0 => exact Bool.noConfusion hcan
    | str s0 => exact Bool.noConfusion hcan
    | arr xs0 => exact Bool.noConfusion hcan
    | obj ofs0 => exact Bool.noConfusion hcan
  · -- k = "visibility"
    cases v with
    | str s =>
      rw [hv] at h11
      simp only [decStr, Except.ok.injEq] at h11
      have hiv : img.visibility = p.visibility := by
        rcases hbr with ⟨-, rfl⟩ | ⟨m', e', c', -, -, rfl⟩ <;> rfl
      have hcomp : jGet (images.encodeImage img) "visibility" =
          some (Json.str img.visibility) := rfl
      rw [hcomp, hiv, ← h11]
    | null => exact Bool.noConfusion hcan
    | bool b0 => exact Bool.noConfusion hcan
    | num m0 e0 => exact Bool.noConfusion hcan
    | arr xs0 => exact Bool.noConfusion hcan
    | obj ofs0 => exact Bool.noConfusion hcan
  · -- k = "checksum"
    cases v with
    | str s =>
      rw [hv] at h12
      simp only [decStr, Except.ok.injEq] at h12
      have hiv : img.checksum = p.checksum := by
        rcases hbr with ⟨-, rfl⟩ | ⟨m', e', c', -, -, rfl⟩ <;> rfl
      have hcomp : jGet (images.encodeImage img) "checksum" =
          some (Json.str img.checksum) := rfl
      rw [hcomp, hiv, ← h12]
    | null => exact Bool.noConfusion hcan
    | bool b0 => exact Bool.noConfusion hcan
    | num m0 e0 => exact Bool.noConfusion hcan
    | arr xs0 => exact Bool.noConfusion hcan
    | obj ofs0 => exact Bool.noConfusion hcan
  · -- k = "size"
    cases v with
    | num m0 e0 =>
      have hcan0 : (decide (e0 = 0) && decide (m0.natAbs ≤ 2 ^ 53)) = true := hcan
      rw [Bool.and_eq_true, decide_eq_true_eq, decide_eq_true_eq] at hcan0
      obtain ⟨he, -⟩ := hcan0
      subst he
      have hsr : p.sizeRaw = some (Json.num m0 0) := by
        rw [h23, hv]
        rfl
      rcases hbr with ⟨hnone, -⟩ | ⟨m', e', c', hsr', -, himg⟩
      · rw [hnone] at hsr
        exact Option.noConfusion hsr
      · rw [hsr'] at hsr
        injection hsr with hsr1
        injection hsr1 with hm he
        subst hm
        subst he
        have hsv : img.sizeBytes = truncDec m' 0 := by rw [himg]
        have hcomp : jGet (images.encodeImage img) "size" =
            some (Json.num img.sizeBytes 0) := rfl
        rw [hcomp, hsv]
        simp [truncDec, pow_zero, Int.tdiv_one]
    | null => exact Bool.noConfusion hcan
    | bool b0 => exact Bool.noConfusion hcan
    | str s0 => exact Bool.noConfusion hcan
    | arr xs0 => exact Bool.noConfusion hcan
    | obj ofs0 => exact Bool.noConfusion hcan
  · -- k = "metadata"
    cases v with
    | obj ofs0 =>
      have hcan0 : ((ofs0.all fun kv => isStrB kv.2) &&
          keysStrictSorted (ofs0.map Prod.fst)) = true := hcan
      rw [Bool.and_eq_true] at hcan0
      obtain ⟨prs, hm, henc⟩ := strMap_canonical_roundtrip hcan0.1 hcan0.2
      rw [hv] at h13
      rw [hm] at h13
      injection h13 with hps
      have hiv : img.metadata = p.metadata := by
        rcases hbr with ⟨-, rfl⟩ | ⟨m', e', c', -, -, rfl⟩ <;> rfl
      have hcomp : jGet (images.encodeImage img) "metadata" =
          some (encodeStrMap img.metadata) := rfl
      rw [hcomp, hiv, ← hps, henc]
    | null => exact Bool.noConfusion hcan
    | bool b0 => exact Bool.noConfusion hcan
    | num m0 e0 => exact Bool.noConfusion hcan
    | str s0 => exact Bool.noConfusion hcan
    | arr xs0 => exact Bool.noConfusion hcan
  · -- k = "file"
    cases v with
    | str s =>
      rw [hv] at h15
      simp only [decStr, Except.ok.injEq] at h15
      have hiv : img.file = p.file := by
        rcases hbr with ⟨-, rfl⟩ | ⟨m', e', c', -, -, rfl⟩ <;> rfl
      have hcomp : jGet (images.encodeImage img) "file" =
          some (Json.str img.file) := rfl
      rw [hcomp, hiv, ← h15]
    | null => exact Bool.noConfusion hcan
    | bool b0 => exact Bool.noConfusion hcan
    | num m0 e0 => exact Bool.noConfusion hcan
    | arr xs0 => exact Bool.noConfusion hcan
    | obj ofs0 => exact Bool.noConfusion hcan
  · -- k = "schema"
    cases v with
    | str s =>
      rw [hv] at h16
      simp only [decStr, Except.ok.injEq] at h16
      have hiv : img.schema = p.schema := by
        rcases hbr with ⟨-, rfl⟩ | ⟨m', e', c', -, -, rfl⟩ <;> rfl
      have hcomp : jGet (images.encodeImage img) "schema" =
          some (Json.str img.schema) := rfl
      rw [hcomp, hiv, ← h16]
    | null => exact Bool.noConfusion hcan
    | bool b0 => exact Bool.noConfusion hcan
    | num m0 e0 => exact Bool.noConfusion hcan
    | arr xs0 => exact Bool.noConfusion hcan
    | obj ofs0 => exact Bool.noConfusion hcan
  · -- k = "virtual_size"
    cases v with
    | num m0 e0 =>
      have hcan0 : (decide (e0 = 0) && decide (-(2 ^ 63) ≤ m0) &&
          decide (m0 < 2 ^ 63)) = true := hcan
      rw [Bool.and_eq_true, Bool.and_eq_true, decide_eq_true_eq,
        decide_eq_true_eq, decide_eq_true_eq] at hcan0
      obtain ⟨⟨he, hlo⟩, hhi⟩ := hcan0
      subst he
      rw [hv, decInt64_num_ok hlo hhi] at h17
      injection h17 with hps
      have hiv : img.virtualSize = p.virtualSize := by
        rcases hbr with ⟨-, rfl⟩ | ⟨m', e', c', -, -, rfl⟩ <;> rfl
      have hcomp : jGet (images.encodeImage img) "virtual_size" =
          some (Json.num img.virtualSize 0) := rfl
      rw [hcomp, hiv, ← hps]
    | null => exact Bool.noConfusion hcan
    | bool b0 => exact Bool.noConfusion hcan
    | str s0 => exact Bool.noConfusion hcan
    | arr xs0 => exact Bool.noConfusion hcan
    | obj ofs0 => exact Bool.noConfusion hcan
  · -- k = "self"
    cases v with
    | str s =>
      rw [hv] at h18
      simp only [decStr, Except.ok.injEq] at h18
      have hiv : img.self = p.self := by
        rcases hbr with ⟨-, rfl⟩ | ⟨m', e', c', -, -, rfl⟩ <;> rfl
      have hcomp : jGet (images.encodeImage img) "self" =
          some (Json.str img.self) := rfl
      rw [hcomp, hiv, ← h18]
    | null => exact Bool.noConfusion hcan
    | bool b0 => exact Bool.noConfusion hcan
    | num m0 e0 => exact Bool.noConfusion hcan
    | arr xs0 => exact Bool.noConfusion hcan
    | obj ofs0 => exact Bool.noConfusion hcan
  · -- k = "direct_url"
    cases v with
    | str s =>
      rw [hv] at h19
      simp only [decStr, Except.ok.injEq] at h19
      have hiv : img.directURL = p.directURL := by
        rcases hbr with ⟨-, rfl⟩ | ⟨m', e', c', -, -, rfl⟩ <;> rfl
      have hcomp : jGet (images.encodeImage img) "direct_url" =
          some (Json.str img.directURL) := rfl
      rw [hcomp, hiv, ← h19]
    | null => exact Bool.noConfusion hcan
    | bool b0 => exact Bool.noConfusion hcan
    | num m0 e0 => exact Bool.noConfusion hcan
    | arr xs0 => exact Bool.noConfusion hcan
    | obj ofs0 => exact Bool.noConfusion hcan
  · -- k = "locations"
    cases v with
    | arr xs0 =>
      have hall : xs0.all isStrB = true := hcan
      obtain ⟨ss, hm, hmap⟩ := strList_roundtrip hall
      rw [hv] at h20
      simp only [decStrList] at h20
      rw [hm] at h20
      injection h20 with hps
      have hiv : img.locations = p.locations := by
        rcases hbr with ⟨-, rfl⟩ | ⟨m', e', c', -, -, rfl⟩ <;> rfl
      have hcomp : jGet (images.encodeImage img) "locations" =
          some (Json.arr (img.locations.map Json.str)) := rfl
      rw [hcomp, hiv, ← hps, hmap]
    | null => exact Bool.noConfusion hcan
    | bool b0 => exact Bool.noConfusion hcan
    | num m0 e0 => exact Bool.noConfusion hcan
    | str s0 => exact Bool.noConfusion hcan
    | obj ofs0 => exact Bool.noConfusion hcan

end Gophercloud

namespace Gophercloud

namespace images

def c8fs : List (String × Json) :=
  [("size", Json.num 105 1), ("created_at", Json.str "2014-01-01T00:00:00Z"),
   ("updated_at", Json.str "2014-01-01T00:00:00Z"),
   ("properties", Json.obj [("a", Json.str "b")])]

/-- C8 counterexample: the payload with size `10.5`, both timestamps present
and a literal "properties" object decodes successfully, but re-encoding the
modeled fields does not reproduce it: the size comes back truncated to `10`,
the timestamps are not emitted at all (`json:"-"`), and the "properties"
field comes back empty (it was rebuilt from the residual custom keys). -/
theorem C8_counterexample :
    (decodeImage c8fs).toOption.map (fun img =>
        (jGet (encodeImage img) "size", jGet (encodeImage img) "created_at",
         jGet (encodeImage img) "properties")) =
      some (some (Json.num 10 0), none, some (Json.obj [])) ∧
    jGet c8fs "size" = some (Json.num 105 1) ∧
    jGet c8fs "created_at" = some (Json.str "2014-01-01T00:00:00Z") ∧
    jGet c8fs "properties" = some (Json.obj [("a", Json.str "b")]) ∧
    Json.num 10 0 ≠ Json.num 105 1 ∧
    ¬ numValEq 10 0 105 1 := by
  refine ⟨rfl, rfl, rfl, rfl, ?_, by decide⟩
  intro hx
  injection hx with hm he
  exact absurd hm (by decide)

def c8wfs : List (String × Json) :=
  [("id", .str "i"), ("name", .str "n"), ("status", .str "active"),
   ("tags", .arr [.str "t1", .str "t2"]), ("container_format", .str "bare"),
   ("disk_format", .str "qcow2"), ("min_disk", .num 20 0), ("min_ram", .num 512 0),
   ("owner", .str "own"), ("protected", .bool true), ("visibility", .str "public"),
   ("checksum", .str "ck"), ("size", .num 1073741824 0),
   ("metadata", .obj [("alpha", .str "1"), ("beta", .str "2")]),
   ("file", .str "/f"), ("schema", .str "/s"), ("virtual_size", .num 0 0),
   ("self", .str "/self"), ("direct_url", .str "du"), ("locations", .arr []),
   ("created_at", .str "2014-01-01T00:00:00Z"),
   ("updated_at", .str "2014-01-02T00:00:00Z")]

def c8wimg : Image :=
  { id := "i", name := "n", status := "active", tags := ["t1", "t2"],
    containerFormat := "bare", diskFormat := "qcow2", minDiskGigabytes := 20,
    minRAMMegabytes := 512, owner := "own", protectedFlag := true,
    visibility := "public", checksum := "ck", sizeBytes := 1073741824,
    metadata := [("alpha", "1"), ("beta", "2")], properties := [],
    createdAt := { year := 2014, month := 1, day := 1, hour := 0, minute := 0,
                   second := 0, nanos := 0, offsetMin := 0 },
    updatedAt := { year := 2014, month := 1, day := 2, hour := 0, minute := 0,
                   second := 0, nanos := 0, offsetMin := 0 },
    file := "/f", schema := "/s", virtualSize := 0, self := "/self",
    directURL := "du", locations := [] }

theorem C8_witness :
    jGet (encodeImage c8wimg) "size" = some (Json.num 1073741824 0) ∧
    jGet (encodeImage c8wimg) "metadata" =
      some (Json.obj [("alpha", .str "1"), ("beta", .str "2")]) ∧
    jGet (encodeImage c8wimg) "name" = some (Json.str "n") ∧
    jGet (encodeImage c8wimg) "tags" = some (Json.arr [.str "t1", .str "t2"]) := by
  refine ⟨?_, ?_, ?_, ?_⟩
  · exact @C8_canonical_roundtrip c8wfs c8wimg "size" (Json.num 1073741824 0)
      rfl (by decide) rfl (by decide)
  · exact @C8_canonical_roundtrip c8wfs c8wimg "metadata"
      (Json.obj [("alpha", .str "1"), ("beta", .str "2")])
      rfl (by decide) rfl (by decide)
  · exact @C8_canonical_roundtrip c8wfs c8wimg "name" (Json.str "n")
      rfl (by decide) rfl (by decide)
  · exact @C8_canonical_roundtrip c8wfs c8wimg "tags"
      (Json.arr [.str "t1", .str "t2"])
      rfl (by decide) rfl (by decide)

end images

end Gophercloud
